import Mathlib

/-!
Verification of the geo-guessing game's core logic against its specification.

The discrete part (collection playthrough engine, attempt submission, leaderboard)
is embedded as computable Lean functions and a small-step transition relation
mirroring `src/components/CollectionPlayer.tsx`, `src/components/CollectionHome.tsx`
and `src/services/collectionService.ts`.  Scores are integers (the code produces
them with `Math.round`); distances are carried opaquely (the engine only stores
them, never branches on them), so they are modelled as integers as well.

The geometric part (haversine distance, score curve, GCJ-02 coordinate shift)
is embedded over the real numbers.
-/

namespace GeoGuess

/-- One element of `CollectionProgress.completedItems`
(`{gameId, score, distance}` in `src/types.ts`). -/
structure CompletedItem where
  gameId : String
  score : ℤ
  distance : ℤ
deriving DecidableEq

/-- `CollectionProgress` from `src/types.ts` (the local, resumable checkpoint). -/
structure CollectionProgress where
  collectionId : String
  userId : String
  completedItems : List CompletedItem
  isCompleted : Bool
  totalScore : ℤ
  startedAt : ℤ
  completedAt : Option ℤ
deriving DecidableEq

/-- The `PlayState` union of `CollectionPlayer.tsx`, with the current question
index attached to the states that have one.  The `initializing` state is the
moment just before `loadQuestion(startIndex)` runs, which is `loading` here;
`done` is the state after the completion branch ran. -/
inductive PlayState where
  | loading (index : ℕ)
  | historical (index : ℕ)
  | playing (index : ℕ)
  | reviewing (index : ℕ)
  | done
deriving DecidableEq

/-- A row of the remote `guesses` table, restricted to the fields the collection
engine reads back (`game_id, score, distance`). -/
structure GuessRow where
  gameId : String
  score : ℤ
  distance : ℤ
deriving DecidableEq

/-- The state visible to one user's collection playthrough: the in-memory
progress ref, the play state, the `localStorage` slot for this
(collection, user) pair, the remote `guesses` rows of this user, the
session's pre-answered snapshot (`preAnsweredRef`), and the total scores
passed to `submitCollectionAttempt`. -/
structure World where
  progress : CollectionProgress
  playState : PlayState
  stored : Option CollectionProgress
  guesses : List GuessRow
  preAnswered : List GuessRow
  submittedAttempts : List ℤ
deriving DecidableEq

/-- The ids already recorded in progress
(`progressRef.current.completedItems.some(i => i.gameId === gameId)`). -/
def recordedIds (items : List CompletedItem) : List String :=
  items.map (·.gameId)

/-- Ids of a list of guess rows. -/
def guessKeys (rows : List GuessRow) : List String :=
  rows.map (·.gameId)

/-- Lookup in the pre-answered snapshot (the `Map` built in the init effect of
`CollectionPlayer.tsx`; the model keeps the underlying rows). -/
def lookupGuess (rows : List GuessRow) (gameId : String) : Option GuessRow :=
  rows.find? (fun r => r.gameId == gameId)

/-- The batch query of the init effect: the user's guesses restricted to the
collection's game ids. -/
def preAnsweredOf (gameIds : List String) (guesses : List GuessRow) : List GuessRow :=
  guesses.filter (fun r => gameIds.contains r.gameId)

/-- Append a completed item and add its score to `totalScore` (the `updated`
progress objects built in `loadQuestion` and `handleSubmitGuess`). -/
def appendItem (p : CollectionProgress) (it : CompletedItem) : CollectionProgress :=
  { p with completedItems := p.completedItems ++ [it],
           totalScore := p.totalScore + it.score }

/-- `loadQuestion(index)` of `CollectionPlayer.tsx`.  `availableNow` is the set
of game ids for which `getGameById` currently returns a game (a missing or
failed fetch yields `null` and the question is skipped).  The prefetch cache is
omitted: it only decides which copy of the game object is used, never the
resulting state.  The skip branch leaves the machine in `loading (index+1)`;
the `useEffect` on `currentIndex` re-runs `loadQuestion` from there. -/
def loadQuestion (gameIds availableNow : List String) (now : ℤ) (w : World)
    (index : ℕ) : World :=
  if h : gameIds.length ≤ index then
    -- All done: mark complete, persist locally, submit the attempt.
    let final := { w.progress with isCompleted := true, completedAt := some now }
    { w with progress := final, stored := some final,
             submittedAttempts := w.submittedAttempts ++ [final.totalScore],
             playState := .done }
  else
    let gameId := gameIds.get ⟨index, by omega⟩
    match lookupGuess w.preAnswered gameId with
    | some row =>
        if gameId ∈ recordedIds w.progress.completedItems then
          { w with playState := .historical index }
        else
          let updated := appendItem w.progress ⟨gameId, row.score, row.distance⟩
          { w with progress := updated, stored := some updated,
                   playState := .historical index }
    | none =>
        if gameId ∈ availableNow then
          { w with playState := .playing index }
        else
          { w with playState := .loading (index + 1) }

/-- `handleSubmitGuess` of `CollectionPlayer.tsx`.  `score` and `distance` are
the values computed from the user's pin (`calcScore(calcDistance(...))`); the
state update is the same for every such pair.  `persistOk` tells whether the
`saveGuess` insert reached the remote store: the source logs a failure and
continues, so only the `guesses` table depends on it. -/
def submitGuess (gameIds : List String) (w : World) (index : ℕ)
    (score distance : ℤ) (persistOk : Bool) : World :=
  let gameId := gameIds.getD index ""
  let updated := appendItem w.progress ⟨gameId, score, distance⟩
  { w with guesses := if persistOk then w.guesses ++ [⟨gameId, score, distance⟩]
                      else w.guesses,
           progress := updated, stored := some updated,
           playState := .reviewing index }

/-- `handleNext`: advance the index; `loadQuestion` fires from the effect. -/
def handleNext (w : World) (index : ℕ) : World :=
  { w with playState := .loading (index + 1) }

/-- The fresh progress object of the `progressRef` initializer. -/
def freshProgress (collectionId userId : String) (now : ℤ) : CollectionProgress :=
  { collectionId := collectionId, userId := userId, completedItems := [],
    isCompleted := false, totalScore := 0, startedAt := now, completedAt := none }

/-- Opening the player: `CollectionHome.tsx` computes
`startIndex = progress.completedItems.length` (0 when there is no saved
progress) and the init effect of `CollectionPlayer.tsx` restores the saved
progress and snapshots the pre-answered guesses. -/
def startSession (gameIds : List String) (collectionId userId : String) (now : ℤ)
    (w : World) : World :=
  let p := w.stored.getD (freshProgress collectionId userId now)
  { w with progress := p,
           preAnswered := preAnsweredOf gameIds w.guesses,
           playState := .loading p.completedItems.length }

/-- All behaviours of the engine together with its environment: game fetches
may fail or succeed per call (`availableNow` is chosen at each load), guess
writes may silently fail (`persistOk`), the user may leave and re-open the
collection at any time (`restart`), and guesses may also be recorded from the
main game flow (`externalGuess`). -/
inductive StepAny (gameIds : List String) : World → World → Prop
  | load (w : World) (index : ℕ) (availableNow : List String) (now : ℤ) :
      w.playState = .loading index →
      StepAny gameIds w (loadQuestion gameIds availableNow now w index)
  | submit (w : World) (index : ℕ) (score distance : ℤ) (persistOk : Bool) :
      w.playState = .playing index →
      StepAny gameIds w (submitGuess gameIds w index score distance persistOk)
  | next (w : World) (index : ℕ) :
      w.playState = .historical index ∨ w.playState = .reviewing index →
      StepAny gameIds w (handleNext w index)
  | restart (w : World) (collectionId userId : String) (now : ℤ) :
      StepAny gameIds w (startSession gameIds collectionId userId now w)
  | externalGuess (w : World) (g : GuessRow) :
      StepAny gameIds w { w with guesses := w.guesses ++ [g] }

/-- The well-behaved runs: one fixed set `avail` of fetchable games, every
guess write persists, and external guesses are only recorded for fetchable
games. -/
inductive StepGood (gameIds avail : List String) : World → World → Prop
  | load (w : World) (index : ℕ) (now : ℤ) :
      w.playState = .loading index →
      StepGood gameIds avail w (loadQuestion gameIds avail now w index)
  | submit (w : World) (index : ℕ) (score distance : ℤ) :
      w.playState = .playing index →
      StepGood gameIds avail w (submitGuess gameIds w index score distance true)
  | next (w : World) (index : ℕ) :
      w.playState = .historical index ∨ w.playState = .reviewing index →
      StepGood gameIds avail w (handleNext w index)
  | restart (w : World) (collectionId userId : String) (now : ℤ) :
      StepGood gameIds avail w (startSession gameIds collectionId userId now w)
  | externalGuess (w : World) (g : GuessRow) :
      g.gameId ∈ avail →
      StepGood gameIds avail w { w with guesses := w.guesses ++ [g] }

/-- Before the first session: no local progress, some prior guess history. -/
def initWorld (initialGuesses : List GuessRow) : World :=
  { progress := freshProgress "" "" 0, playState := .done, stored := none,
    guesses := initialGuesses, preAnswered := [], submittedAttempts := [] }

/-- States reachable under arbitrary environment behaviour. -/
def ReachableAny (gameIds : List String) (initialGuesses : List GuessRow)
    (w : World) : Prop :=
  Relation.ReflTransGen (StepAny gameIds) (initWorld initialGuesses) w

/-- States reachable under the well-behaved environment. -/
def ReachableGood (gameIds avail : List String) (initialGuesses : List GuessRow)
    (w : World) : Prop :=
  Relation.ReflTransGen (StepGood gameIds avail) (initWorld initialGuesses) w

/-! #### The inductive invariant for well-behaved runs

`Covered` says every one of the first `m` questions has been dealt with: its
id is recorded, or it is unavailable and has no stored guess.  `ItemsOK`
packages the progress invariants relative to such a frontier `m`:
`totalScore` is the sum of the item scores, every recorded id has a stored
guess, and the recorded ids are a subsequence of the first `m` question ids.
`PreCover` says every recorded id is visible to the current session: in the
pre-answered snapshot, or recorded at a question index below the given
bound (i.e. this session already passed it). -/

def Covered (gameIds avail gks : List String) (ids : List String) (m : ℕ) : Prop :=
  ∀ j : ℕ, j < m → ∀ hj : j < gameIds.length,
    gameIds[j] ∈ ids ∨ (gameIds[j] ∉ avail ∧ gameIds[j] ∉ gks)

def ItemsOK (gameIds avail gks : List String) (p : CollectionProgress) (m : ℕ) :
    Prop :=
  p.totalScore = (p.completedItems.map (·.score)).sum ∧
  (∀ g ∈ recordedIds p.completedItems, g ∈ gks) ∧
  List.Sublist (recordedIds p.completedItems) (gameIds.take m) ∧
  Covered gameIds avail gks (recordedIds p.completedItems) m

def PreCover (gameIds : List String) (pre : List GuessRow) (ids : List String)
    (bound : ℕ) : Prop :=
  ∀ g ∈ ids, g ∈ guessKeys pre ∨
    ∃ j : ℕ, j < bound ∧ ∃ hj : j < gameIds.length, gameIds[j] = g

def PhaseOK (gameIds avail : List String) (w : World) (m : ℕ) : Prop :=
  match w.playState with
  | .loading index => index ≤ m ∧
      PreCover gameIds w.preAnswered (recordedIds w.progress.completedItems) index
  | .historical index => index < m ∧
      PreCover gameIds w.preAnswered (recordedIds w.progress.completedItems) (index + 1)
  | .reviewing index => index < m ∧
      PreCover gameIds w.preAnswered (recordedIds w.progress.completedItems) (index + 1)
  | .playing index => index = m ∧
      PreCover gameIds w.preAnswered (recordedIds w.progress.completedItems) index ∧
      ∃ hj : index < gameIds.length,
        gameIds[index] ∉ recordedIds w.progress.completedItems ∧
        gameIds[index] ∈ avail ∧
        lookupGuess w.preAnswered gameIds[index] = none
  | .done => True

def WorldInv (gameIds avail : List String) (w : World) : Prop :=
  (∃ m : ℕ, ItemsOK gameIds avail (guessKeys w.guesses) w.progress m ∧
    PhaseOK gameIds avail w m) ∧
  (∀ p, w.stored = some p →
    ∃ m : ℕ, ItemsOK gameIds avail (guessKeys w.guesses) p m) ∧
  (∀ g ∈ guessKeys w.preAnswered, g ∈ guessKeys w.guesses) ∧
  (∀ g ∈ guessKeys w.guesses, g ∈ gameIds →
    g ∈ guessKeys w.preAnswered ∨ g ∈ avail ∨ w.playState = .done)

/-! ### `collectionService.ts`: attempt submission and leaderboard -/

/-- A row of the remote `collection_attempts` table. -/
structure CollectionAttempt where
  id : String
  collectionId : String
  userId : String
  userName : String
  totalScore : ℤ
  completedAt : ℤ
deriving DecidableEq

/-- The rows matching the `.eq('collection_id', ...).eq('user_id', ...)` filter. -/
def attemptMatches (store : List CollectionAttempt) (collectionId userId : String) :
    List CollectionAttempt :=
  store.filter (fun r => r.collectionId == collectionId && r.userId == userId)

/-- supabase's `maybeSingle()`: one row gives the row, zero rows give `null`,
and several rows give an error whose `data` is also `null` (the source ignores
the error field). -/
def maybeSingle (rows : List CollectionAttempt) : Option CollectionAttempt :=
  match rows with
  | [r] => some r
  | _ => none

/-- `submitCollectionAttempt` of `src/services/collectionService.ts`, as the
transformation it performs on the `collection_attempts` table. -/
def submitCollectionAttempt (store : List CollectionAttempt)
    (newId collectionId userId userName : String) (totalScore now : ℤ) :
    List CollectionAttempt :=
  match maybeSingle (attemptMatches store collectionId userId) with
  | some existing =>
      if existing.totalScore < totalScore then
        store.map (fun r =>
          if r.id == existing.id then
            { r with totalScore := totalScore, completedAt := now }
          else r)
      else store
  | none =>
      store ++ [{ id := newId, collectionId := collectionId, userId := userId,
                  userName := userName, totalScore := totalScore,
                  completedAt := now }]

/-- The order the leaderboard query requests from the store:
`total_score` descending, then `completed_at` ascending. -/
def attemptLE (a b : CollectionAttempt) : Prop :=
  b.totalScore < a.totalScore ∨
    (a.totalScore = b.totalScore ∧ a.completedAt ≤ b.completedAt)

instance : DecidableRel attemptLE := fun a b =>
  inferInstanceAs (Decidable (b.totalScore < a.totalScore ∨
    (a.totalScore = b.totalScore ∧ a.completedAt ≤ b.completedAt)))

instance : IsTotal CollectionAttempt attemptLE where
  total a b := by
    unfold attemptLE
    rcases lt_trichotomy a.totalScore b.totalScore with h | h | h
    · exact Or.inr (Or.inl h)
    · rcases le_total a.completedAt b.completedAt with h2 | h2
      · exact Or.inl (Or.inr ⟨h, h2⟩)
      · exact Or.inr (Or.inr ⟨h.symm, h2⟩)
    · exact Or.inl (Or.inl h)

instance : IsTrans CollectionAttempt attemptLE where
  trans a b c hab hbc := by
    unfold attemptLE at hab hbc ⊢
    rcases hab with h | ⟨h1, h2⟩ <;> rcases hbc with h3 | ⟨h4, h5⟩
    · exact Or.inl (h3.trans h)
    · exact Or.inl (h4 ▸ h)
    · exact Or.inl (by rw [h1]; exact h3)
    · exact Or.inr ⟨h1.trans h4, h2.trans h5⟩

/-- The client-side first-occurrence deduplication loop of
`getCollectionLeaderboard` (`seen : Set<string>`). -/
def dedupByUser (seen : List String) : List CollectionAttempt → List CollectionAttempt
  | [] => []
  | r :: rest =>
      if r.userId ∈ seen then dedupByUser seen rest
      else r :: dedupByUser (r.userId :: seen) rest

/-- The deduplicated, ordered list that `getCollectionLeaderboard` slices:
the store returns the rows sorted by score descending / completion ascending,
then the loop keeps the first row per user. -/
def leaderboardDedup (rows : List CollectionAttempt) : List CollectionAttempt :=
  dedupByUser [] (List.insertionSort attemptLE rows)

/-- `getCollectionLeaderboard` of `src/services/collectionService.ts`:
the top-ten slice and `myRecord`. -/
def getCollectionLeaderboard (rows : List CollectionAttempt)
    (currentUserId : String) : List CollectionAttempt × Option CollectionAttempt :=
  let deduped := leaderboardDedup rows
  (deduped.take 10, deduped.find? (fun a => a.userId == currentUserId))

/-! ### Geometry: distance, score, and the GCJ-02 coordinate shift

The JavaScript floating-point expressions are embedded over `ℝ` (ideal real
arithmetic); `Math.round` is `round`, which also rounds half-up. -/

/-- `LatLng` from `src/types.ts`. -/
@[ext]
structure LatLng where
  lat : ℝ
  lng : ℝ

noncomputable section

/-- JavaScript's `Math.atan2(y, x)`. -/
def atan2 (y x : ℝ) : ℝ :=
  if 0 < x then Real.arctan (y / x)
  else if x < 0 then
    (if 0 ≤ y then Real.arctan (y / x) + Real.pi else Real.arctan (y / x) - Real.pi)
  else
    (if 0 < y then Real.pi / 2 else if y < 0 then -(Real.pi / 2) else 0)

/-- `calcDistance` of `src/components/CollectionPlayer.tsx` (haversine on a
sphere of radius 6371e3 m).  `calculateDistance` of `src/App.tsx` computes the
same expression after its null guard. -/
def calcDistance (p1 p2 : LatLng) : ℝ :=
  let R : ℝ := 6371e3
  let φ1 := p1.lat * Real.pi / 180
  let φ2 := p2.lat * Real.pi / 180
  let Δφ := (p2.lat - p1.lat) * Real.pi / 180
  let Δlng := (p2.lng - p1.lng) * Real.pi / 180
  let a := Real.sin (Δφ / 2) * Real.sin (Δφ / 2) +
    Real.cos φ1 * Real.cos φ2 * Real.sin (Δlng / 2) * Real.sin (Δlng / 2)
  R * 2 * atan2 (Real.sqrt a) (Real.sqrt (1 - a))

/-- `calculateDistance` of `src/App.tsx`: `if (!pos1 || !pos2) return 0;`
followed by the haversine formula of `calcDistance`. -/
def calculateDistance (pos1 pos2 : Option LatLng) : ℝ :=
  match pos1, pos2 with
  | some p1, some p2 => calcDistance p1 p2
  | _, _ => 0

/-- `calculateScore` of `src/App.tsx` and `calcScore` of
`src/components/CollectionPlayer.tsx` (identical bodies). -/
def calculateScore (distance : ℝ) : ℤ :=
  if distance < 50 then 5000 else round (5000 * Real.exp (-distance / 2000000))

namespace CoordTransform

/-- The source's own `PI` constant (a rational literal, not `Math.PI`). -/
def PI : ℝ := 3.1415926535897932384626

/-- Semi-major axis constant `a` of the transform. -/
def a : ℝ := 6378245.0

/-- Eccentricity-squared constant `ee` of the transform. -/
def ee : ℝ := 0.00669342162296594323

/-- `transformLat` (`src/unnamed/part_003`). -/
def transformLat (lng lat : ℝ) : ℝ :=
  -100.0 + 2.0 * lng + 3.0 * lat + 0.2 * lat * lat + 0.1 * lng * lat +
      0.2 * Real.sqrt |lng| +
    (20.0 * Real.sin (6.0 * lng * PI) + 20.0 * Real.sin (2.0 * lng * PI)) * 2.0 / 3.0 +
    (20.0 * Real.sin (lat * PI) + 40.0 * Real.sin (lat / 3.0 * PI)) * 2.0 / 3.0 +
    (160.0 * Real.sin (lat / 12.0 * PI) + 320 * Real.sin (lat * PI / 30.0)) * 2.0 / 3.0

/-- `transformLng` (`src/unnamed/part_003`). -/
def transformLng (lng lat : ℝ) : ℝ :=
  300.0 + lng + 2.0 * lat + 0.1 * lng * lng + 0.1 * lng * lat +
      0.1 * Real.sqrt |lng| +
    (20.0 * Real.sin (6.0 * lng * PI) + 20.0 * Real.sin (2.0 * lng * PI)) * 2.0 / 3.0 +
    (20.0 * Real.sin (lng * PI) + 40.0 * Real.sin (lng / 3.0 * PI)) * 2.0 / 3.0 +
    (150.0 * Real.sin (lng / 12.0 * PI) + 300.0 * Real.sin (lng / 30.0 * PI)) * 2.0 / 3.0

/-- `outOfChina` (`src/unnamed/part_003`): the complement of the regional
bounding box. -/
def outOfChina (lng lat : ℝ) : Prop :=
  lng < 72.004 ∨ lng > 137.8347 ∨ lat < 0.8293 ∨ lat > 55.8271

instance (lng lat : ℝ) : Decidable (outOfChina lng lat) :=
  inferInstanceAs (Decidable (_ ∨ _ ∨ _ ∨ _))

/-- `radLat` of `wgs84ToGcj02`. -/
def radLat (wgsLat : ℝ) : ℝ := wgsLat / 180.0 * PI

/-- `magic = 1 - ee * sin(radLat)^2` of `wgs84ToGcj02`. -/
def magic (wgsLat : ℝ) : ℝ :=
  1 - ee * (Real.sin (radLat wgsLat) * Real.sin (radLat wgsLat))

/-- The latitude shift applied inside the region
(`dLat = (dLat * 180.0) / ((a * (1 - ee)) / (magic * sqrtMagic) * PI)`). -/
def dLat (wgsLat wgsLng : ℝ) : ℝ :=
  transformLat (wgsLng - 105.0) (wgsLat - 35.0) * 180.0 /
    (a * (1 - ee) / (magic wgsLat * Real.sqrt (magic wgsLat)) * PI)

/-- The longitude shift applied inside the region
(`dLng = (dLng * 180.0) / (a / sqrtMagic * Math.cos(radLat) * PI)`). -/
def dLng (wgsLat wgsLng : ℝ) : ℝ :=
  transformLng (wgsLng - 105.0) (wgsLat - 35.0) * 180.0 /
    (a / Real.sqrt (magic wgsLat) * Real.cos (radLat wgsLat) * PI)

/-- `wgs84ToGcj02` (`src/unnamed/part_003`): the regional-shifted forward
transform, the identity outside the bounding region. -/
def wgs84ToGcj02 (wgsLat wgsLng : ℝ) : LatLng :=
  if outOfChina wgsLng wgsLat then ⟨wgsLat, wgsLng⟩
  else ⟨wgsLat + dLat wgsLat wgsLng, wgsLng + dLng wgsLat wgsLng⟩

/-- Modelled from the spec: `gcj02ToWgs84` is imported by
`src/components/GameMap.tsx` from `src/services/coordTransform.ts`, a file not
among the provided sources.  Spec §4.2: the inverse is an approximate inverse
of the forward transform and the identity outside the region.  The published
algorithm the forward transform is taken from inverts by subtracting the shift
recomputed at the shifted point: `wgs = 2·gcj − forward(gcj)`. -/
def gcj02ToWgs84 (gcjLat gcjLng : ℝ) : LatLng :=
  if outOfChina gcjLng gcjLat then ⟨gcjLat, gcjLng⟩
  else
    let g := wgs84ToGcj02 gcjLat gcjLng
    ⟨gcjLat * 2 - g.lat, gcjLng * 2 - g.lng⟩

end CoordTransform

/-- The haversine intermediate `a` of `calcDistance`, named for the proofs. -/
def haversineTerm (p1 p2 : LatLng) : ℝ :=
  Real.sin ((p2.lat - p1.lat) * Real.pi / 180 / 2) *
      Real.sin ((p2.lat - p1.lat) * Real.pi / 180 / 2) +
    Real.cos (p1.lat * Real.pi / 180) * Real.cos (p2.lat * Real.pi / 180) *
      Real.sin ((p2.lng - p1.lng) * Real.pi / 180 / 2) *
      Real.sin ((p2.lng - p1.lng) * Real.pi / 180 / 2)

end

/-! ## Theorems -/

/-- The new row inserted by `submitCollectionAttempt` when no attempt exists. -/
def newAttempt (newId collectionId userId userName : String) (totalScore now : ℤ) :
    CollectionAttempt :=
  { id := newId, collectionId := collectionId, userId := userId,
    userName := userName, totalScore := totalScore, completedAt := now }

/-- C4: submitting a collection attempt inserts a fresh row when none is
stored for the (user, collection) pair; when exactly one row is stored it is
rewritten (with the new score and time) precisely when the new total score is
strictly greater, and a lower or equal score leaves the store unchanged. -/
theorem submitCollectionAttempt_spec (store : List CollectionAttempt)
    (newId collectionId userId userName : String) (totalScore now : ℤ) :
    (attemptMatches store collectionId userId = [] →
      submitCollectionAttempt store newId collectionId userId userName totalScore now =
        store ++ [newAttempt newId collectionId userId userName totalScore now]) ∧
    (∀ e, attemptMatches store collectionId userId = [e] →
      (totalScore ≤ e.totalScore →
        submitCollectionAttempt store newId collectionId userId userName totalScore now =
          store) ∧
      (e.totalScore < totalScore →
        submitCollectionAttempt store newId collectionId userId userName totalScore now =
          store.map (fun r =>
            if r.id = e.id then { r with totalScore := totalScore, completedAt := now }
            else r))) := by
  constructor
  · intro h
    unfold submitCollectionAttempt
    rw [h]
    rfl
  · intro e h
    constructor
    · intro hle
      unfold submitCollectionAttempt
      rw [h]
      simp only [maybeSingle]
      rw [if_neg (by omega)]
    · intro hgt
      unfold submitCollectionAttempt
      rw [h]
      simp only [maybeSingle]
      rw [if_pos hgt]
      apply List.map_congr_left
      intro r _
      by_cases hid : r.id = e.id
      · simp [hid]
      · simp [hid]

/-- Witness for `submitCollectionAttempt_spec` at a concrete one-row store. -/
theorem submitCollectionAttempt_spec_witness :
    (submitCollectionAttempt [] "n" "c" "u" "Ann" 700 5 =
      [newAttempt "n" "c" "u" "Ann" 700 5]) ∧
    (submitCollectionAttempt [newAttempt "o" "c" "u" "Ann" 900 1] "n" "c" "u" "Ann" 700 5 =
      [newAttempt "o" "c" "u" "Ann" 900 1]) ∧
    (submitCollectionAttempt [newAttempt "o" "c" "u" "Ann" 600 1] "n" "c" "u" "Ann" 700 5 =
      [{ newAttempt "o" "c" "u" "Ann" 600 1 with totalScore := 700, completedAt := 5 }]) := by
  refine ⟨?_, ?_, ?_⟩
  · exact (submitCollectionAttempt_spec [] "n" "c" "u" "Ann" 700 5).1 (by decide)
  · have h := ((submitCollectionAttempt_spec [newAttempt "o" "c" "u" "Ann" 900 1]
      "n" "c" "u" "Ann" 700 5).2 (newAttempt "o" "c" "u" "Ann" 900 1) (by decide)).1
      (by decide)
    simpa using h
  · have h := ((submitCollectionAttempt_spec [newAttempt "o" "c" "u" "Ann" 600 1]
      "n" "c" "u" "Ann" 700 5).2 (newAttempt "o" "c" "u" "Ann" 600 1) (by decide)).2
      (by decide)
    simpa using h

theorem dedupByUser_sublist (seen : List String) (l : List CollectionAttempt) :
    List.Sublist (dedupByUser seen l) l := by
  induction l generalizing seen with
  | nil => exact List.Sublist.refl _
  | cons a rest ih =>
      unfold dedupByUser
      by_cases h : a.userId ∈ seen
      · rw [if_pos h]
        exact (ih seen).cons a
      · rw [if_neg h]
        exact (ih (a.userId :: seen)).cons₂ a

theorem dedupByUser_not_seen (seen : List String) (l : List CollectionAttempt) :
    ∀ r ∈ dedupByUser seen l, r.userId ∉ seen := by
  induction l generalizing seen with
  | nil => intro r hr; simp [dedupByUser] at hr
  | cons a rest ih =>
      intro r hr
      unfold dedupByUser at hr
      by_cases h : a.userId ∈ seen
      · rw [if_pos h] at hr
        exact ih seen r hr
      · rw [if_neg h] at hr
        rcases List.mem_cons.mp hr with rfl | hr
        · exact h
        · have := ih (a.userId :: seen) r hr
          exact fun hs => this (List.mem_cons_of_mem _ hs)

theorem dedupByUser_nodup_keys (seen : List String) (l : List CollectionAttempt) :
    ((dedupByUser seen l).map (·.userId)).Nodup := by
  induction l generalizing seen with
  | nil => simp [dedupByUser]
  | cons a rest ih =>
      unfold dedupByUser
      by_cases h : a.userId ∈ seen
      · rw [if_pos h]; exact ih seen
      · rw [if_neg h]
        simp only [List.map_cons, List.nodup_cons]
        refine ⟨?_, ih (a.userId :: seen)⟩
        intro hmem
        rcases List.mem_map.mp hmem with ⟨r, hr, hru⟩
        exact dedupByUser_not_seen _ _ r hr (hru ▸ List.mem_cons_self _ _)

theorem dedupByUser_covers (seen : List String) (l : List CollectionAttempt) :
    ∀ s ∈ l, s.userId ∉ seen → ∃ r ∈ dedupByUser seen l, r.userId = s.userId := by
  induction l generalizing seen with
  | nil => intro s hs; simp at hs
  | cons a rest ih =>
      intro s hs hseen
      unfold dedupByUser
      rcases List.mem_cons.mp hs with rfl | hs
      · rw [if_neg hseen]
        exact ⟨s, List.mem_cons_self _ _, rfl⟩
      · by_cases h : a.userId ∈ seen
        · rw [if_pos h]
          exact ih seen s hs hseen
        · rw [if_neg h]
          by_cases huid : s.userId = a.userId
          · exact ⟨a, List.mem_cons_self _ _, huid.symm⟩
          · rcases ih (a.userId :: seen) s hs
              (by simp [huid, hseen]) with ⟨r, hr, hru⟩
            exact ⟨r, List.mem_cons_of_mem _ hr, hru⟩

theorem dedupByUser_dominates (l : List CollectionAttempt)
    (hl : l.Pairwise attemptLE) (seen : List String) :
    ∀ r ∈ dedupByUser seen l, ∀ s ∈ l, s.userId = r.userId → attemptLE r s ∨ r = s := by
  induction l generalizing seen with
  | nil => intro r hr; simp [dedupByUser] at hr
  | cons a rest ih =>
      rcases List.pairwise_cons.mp hl with ⟨ha, hrest⟩
      intro r hr s hs huid
      unfold dedupByUser at hr
      by_cases h : a.userId ∈ seen
      · rw [if_pos h] at hr
        rcases List.mem_cons.mp hs with rfl | hs
        · exact absurd (huid ▸ h) (dedupByUser_not_seen seen rest r hr)
        · exact ih hrest seen r hr s hs huid
      · rw [if_neg h] at hr
        rcases List.mem_cons.mp hr with rfl | hr
        · rcases List.mem_cons.mp hs with rfl | hs
          · exact Or.inr rfl
          · exact Or.inl (ha s hs)
        · rcases List.mem_cons.mp hs with rfl | hs
          · have := dedupByUser_not_seen (s.userId :: seen) rest r hr
            exact absurd (huid ▸ List.mem_cons_self _ _) this
          · exact ih hrest (a.userId :: seen) r hr s hs huid

/-- C5: the leaderboard computation keeps exactly one record per user — one of
that user's own rows, carrying the highest total score, with the earliest
completion time among rows of that score — lists the kept records sorted by
total score descending then completion time ascending, and returns the first
ten of that list. -/
theorem getCollectionLeaderboard_spec (rows : List CollectionAttempt) (uid : String) :
    ((leaderboardDedup rows).map (·.userId)).Nodup ∧
    (∀ r ∈ leaderboardDedup rows, r ∈ rows) ∧
    (∀ s ∈ rows, ∃ r ∈ leaderboardDedup rows, r.userId = s.userId) ∧
    (∀ r ∈ leaderboardDedup rows, ∀ s ∈ rows, s.userId = r.userId →
      s.totalScore ≤ r.totalScore ∧
        (s.totalScore = r.totalScore → r.completedAt ≤ s.completedAt)) ∧
    List.Sorted attemptLE (leaderboardDedup rows) ∧
    (getCollectionLeaderboard rows uid).1 = (leaderboardDedup rows).take 10 := by
  have hperm : List.Perm (List.insertionSort attemptLE rows) rows :=
    List.perm_insertionSort attemptLE rows
  have hsorted : List.Sorted attemptLE (List.insertionSort attemptLE rows) :=
    List.sorted_insertionSort attemptLE rows
  have hsub : List.Sublist (leaderboardDedup rows) (List.insertionSort attemptLE rows) :=
    dedupByUser_sublist [] _
  refine ⟨dedupByUser_nodup_keys [] _, ?_, ?_, ?_, ?_, rfl⟩
  · intro r hr
    exact hperm.mem_iff.mp (hsub.subset hr)
  · intro s hs
    exact dedupByUser_covers [] _ s (hperm.mem_iff.mpr hs) (List.not_mem_nil _)
  · intro r hr s hs huid
    rcases dedupByUser_dominates _ hsorted [] r hr s (hperm.mem_iff.mpr hs) huid with
      hR | rfl
    · rcases hR with hlt | ⟨heq, hle⟩
      · exact ⟨hlt.le, fun heq => absurd heq (by omega)⟩
      · exact ⟨heq.symm.le, fun _ => hle⟩
    · exact ⟨le_refl _, fun _ => le_refl _⟩
  · exact hsorted.sublist hsub

/-- Witness for `getCollectionLeaderboard_spec` on a store with duplicate rows
for one user. -/
theorem getCollectionLeaderboard_spec_witness :
    ((leaderboardDedup
        [⟨"a", "c", "u1", "Ann", 100, 5⟩, ⟨"b", "c", "u1", "Ann", 80, 3⟩,
         ⟨"d", "c", "u2", "Bob", 50, 9⟩]).map (·.userId)).Nodup ∧
    (∃ r ∈ leaderboardDedup
        [⟨"a", "c", "u1", "Ann", 100, 5⟩, ⟨"b", "c", "u1", "Ann", 80, 3⟩,
         ⟨"d", "c", "u2", "Bob", 50, 9⟩], r.userId = "u1") := by
  have h := getCollectionLeaderboard_spec
    [⟨"a", "c", "u1", "Ann", 100, 5⟩, ⟨"b", "c", "u1", "Ann", 80, 3⟩,
     ⟨"d", "c", "u2", "Bob", 50, 9⟩] "u1"
  exact ⟨h.1, h.2.2.1 ⟨"a", "c", "u1", "Ann", 100, 5⟩ (by decide)⟩

/-- C6: loading a question whose game id is already recorded in
`completedItems` never appends to `completedItems` and never changes
`totalScore`: the pre-answered branch is guarded by the `already` check, and
the other branches of `loadQuestion` do not touch the progress object. -/
theorem loadQuestion_recorded_no_change (gameIds availableNow : List String)
    (now : ℤ) (w : World) (index : ℕ) (h1 : index < gameIds.length)
    (h2 : gameIds[index] ∈ recordedIds w.progress.completedItems) :
    (loadQuestion gameIds availableNow now w index).progress.completedItems =
      w.progress.completedItems ∧
    (loadQuestion gameIds availableNow now w index).progress.totalScore =
      w.progress.totalScore := by
  unfold loadQuestion
  rw [dif_neg (by omega)]
  cases hl : lookupGuess w.preAnswered gameIds[index] with
  | some row => simp [hl, h2]
  | none =>
      by_cases ha : gameIds[index] ∈ availableNow <;> simp [hl, ha]

/-- Witness for `loadQuestion_recorded_no_change`: re-entering the single
recorded question of a one-question collection. -/
theorem loadQuestion_recorded_no_change_witness :
    (loadQuestion ["g1"] ["g1"] 3
      ⟨⟨"c", "u", [⟨"g1", 5000, 0⟩], false, 5000, 0, none⟩, .loading 0, none,
        [⟨"g1", 5000, 0⟩], [⟨"g1", 5000, 0⟩], []⟩ 0).progress.completedItems =
      [⟨"g1", 5000, 0⟩] ∧
    (loadQuestion ["g1"] ["g1"] 3
      ⟨⟨"c", "u", [⟨"g1", 5000, 0⟩], false, 5000, 0, none⟩, .loading 0, none,
        [⟨"g1", 5000, 0⟩], [⟨"g1", 5000, 0⟩], []⟩ 0).progress.totalScore = 5000 := by
  have h := loadQuestion_recorded_no_change ["g1"] ["g1"] 3
    ⟨⟨"c", "u", [⟨"g1", 5000, 0⟩], false, 5000, 0, none⟩, .loading 0, none,
      [⟨"g1", 5000, 0⟩], [⟨"g1", 5000, 0⟩], []⟩ 0 (by decide) (by decide)
  exact ⟨h.1.trans rfl, h.2.trans rfl⟩

/-- C9: when the question index is at or past the collection length (as
happens when restored progress is as long as a since-shrunk collection —
`startSession` resumes at `completedItems.length`), `loadQuestion` finalizes
instead of failing: it marks the progress completed, stamps `completedAt`,
persists it locally, submits the collection attempt with the accumulated
total score, and leaves the recorded items untouched. -/
theorem loadQuestion_finalizes (gameIds availableNow : List String) (now : ℤ)
    (w : World) (index : ℕ) (h : gameIds.length ≤ index) :
    (loadQuestion gameIds availableNow now w index).progress.isCompleted = true ∧
    (loadQuestion gameIds availableNow now w index).progress.completedAt = some now ∧
    (loadQuestion gameIds availableNow now w index).stored =
      some (loadQuestion gameIds availableNow now w index).progress ∧
    (loadQuestion gameIds availableNow now w index).submittedAttempts =
      w.submittedAttempts ++
        [(loadQuestion gameIds availableNow now w index).progress.totalScore] ∧
    (loadQuestion gameIds availableNow now w index).progress.completedItems =
      w.progress.completedItems ∧
    (loadQuestion gameIds availableNow now w index).progress.totalScore =
      w.progress.totalScore ∧
    (loadQuestion gameIds availableNow now w index).playState = .done := by
  unfold loadQuestion
  rw [dif_pos h]
  exact ⟨rfl, rfl, rfl, rfl, rfl, rfl, rfl⟩

/-- Witness for `loadQuestion_finalizes`: restored progress of length 1 on a
collection that now has 1 question, resumed at index 1. -/
theorem loadQuestion_finalizes_witness :
    (loadQuestion ["g1"] [] 9
      ⟨⟨"c", "u", [⟨"g1", 4000, 2⟩], false, 4000, 0, none⟩, .loading 1, none,
        [], [], []⟩ 1).progress.isCompleted = true ∧
    (loadQuestion ["g1"] [] 9
      ⟨⟨"c", "u", [⟨"g1", 4000, 2⟩], false, 4000, 0, none⟩, .loading 1, none,
        [], [], []⟩ 1).submittedAttempts = [4000] := by
  have h := loadQuestion_finalizes ["g1"] [] 9
    ⟨⟨"c", "u", [⟨"g1", 4000, 2⟩], false, 4000, 0, none⟩, .loading 1, none,
      [], [], []⟩ 1 (by decide)
  exact ⟨h.1, h.2.2.2.1.trans (by decide)⟩

/-- C3, counterexample: `saveGuess` swallows its insert error
(`if (error) console.error(...)`), and `handleSubmitGuess` appends the guess
and moves to `reviewing` regardless, so a failed write does not stop the
engine from advancing: starting from a fresh playing state, a submit whose
write fails still appends the item, still raises `totalScore`, and still
transitions to `reviewing`. -/
theorem submitGuess_failure_cex :
    (submitGuess ["g"] ⟨freshProgress "c" "u" 0, .playing 0, none, [], [], []⟩
        0 1234 7 false).progress.completedItems = [⟨"g", 1234, 7⟩] ∧
    (submitGuess ["g"] ⟨freshProgress "c" "u" 0, .playing 0, none, [], [], []⟩
        0 1234 7 false).progress.totalScore = 1234 ∧
    (submitGuess ["g"] ⟨freshProgress "c" "u" 0, .playing 0, none, [], [], []⟩
        0 1234 7 false).playState = .reviewing 0 ∧
    (submitGuess ["g"] ⟨freshProgress "c" "u" 0, .playing 0, none, [], [], []⟩
        0 1234 7 false).guesses = [] := by
  decide

/-- C3, amended: the progress update, local persistence and the transition to
`reviewing` after a submitted guess are the same whether or not the remote
guess write persisted; only the remote `guesses` table depends on the write
outcome.  (The user is thus never asked to re-trigger the action: the engine
always advances.) -/
theorem submitGuess_advances (gameIds : List String) (w : World) (index : ℕ)
    (score distance : ℤ) (persistOk : Bool) :
    (submitGuess gameIds w index score distance persistOk).progress.completedItems =
      w.progress.completedItems ++ [⟨gameIds.getD index "", score, distance⟩] ∧
    (submitGuess gameIds w index score distance persistOk).progress.totalScore =
      w.progress.totalScore + score ∧
    (submitGuess gameIds w index score distance persistOk).playState =
      .reviewing index ∧
    (submitGuess gameIds w index score distance persistOk).stored =
      some (submitGuess gameIds w index score distance persistOk).progress := by
  exact ⟨rfl, rfl, rfl, rfl⟩

/-- C10: the main-game distance function returns 0 when either input is
missing instead of throwing, and a missing coordinate therefore scores as a
perfect hit; on present inputs it computes the same haversine expression as
the collection variant `calcDistance` (which accepts only present inputs). -/
theorem calculateDistance_null_guard (o : Option LatLng) (p1 p2 : LatLng) :
    calculateDistance none o = 0 ∧ calculateDistance o none = 0 ∧
    calculateScore (calculateDistance none o) = 5000 ∧
    calculateScore (calculateDistance o none) = 5000 ∧
    calculateDistance (some p1) (some p2) = calcDistance p1 p2 := by
  have h1 : calculateDistance none o = 0 := by cases o <;> rfl
  have h2 : calculateDistance o none = 0 := by cases o <;> rfl
  have hs : calculateScore 0 = 5000 := by
    unfold calculateScore
    rw [if_pos (by norm_num)]
  exact ⟨h1, h2, h1 ▸ hs, h2 ▸ hs, rfl⟩

theorem calculateScore_at_50 : calculateScore 50 = 5000 := by
  unfold calculateScore
  rw [if_neg (by norm_num)]
  have h1 : Real.exp (-(50 : ℝ) / 2000000) < 1 := by
    have h := Real.exp_lt_exp (x := -(50 : ℝ) / 2000000) (y := 0)
    rw [Real.exp_zero] at h
    exact h.mpr (by norm_num)
  have h2 : 1 - (50 : ℝ) / 2000000 ≤ Real.exp (-(50 : ℝ) / 2000000) := by
    have h := Real.add_one_le_exp (-(50 : ℝ) / 2000000)
    linarith
  rw [round_eq]
  refine Int.floor_eq_iff.mpr ⟨?_, ?_⟩ <;> push_cast <;> nlinarith

/-- C1, counterexample: at a distance of exactly 50 m the code takes the
rounding branch, and `round(5000·exp(−50/2000000)) = round(4999.875…) = 5000`,
so the score at 50 m is not strictly below 5000. -/
theorem calculateScore_50_not_lt : ¬ calculateScore 50 < 5000 := by
  rw [calculateScore_at_50]
  omega

/-- C1, amended: the score is 5000 at 49 m, still 5000 at exactly 50 m (the
rounded exponential only drops below 5000 around 200 m), and is monotonically
non-increasing for distances ≥ 50 m. -/
theorem calculateScore_spec :
    calculateScore 49 = 5000 ∧ calculateScore 50 = 5000 ∧
    ∀ d1 d2 : ℝ, 50 ≤ d1 → d1 ≤ d2 → calculateScore d2 ≤ calculateScore d1 := by
  refine ⟨?_, calculateScore_at_50, ?_⟩
  · unfold calculateScore
    rw [if_pos (by norm_num)]
  · intro d1 d2 h50 h12
    unfold calculateScore
    rw [if_neg (by linarith), if_neg (by linarith)]
    rw [round_eq, round_eq]
    apply Int.floor_mono
    have hexp : Real.exp (-d2 / 2000000) ≤ Real.exp (-d1 / 2000000) :=
      Real.exp_le_exp.mpr (by linarith)
    linarith

/-- Witness for `calculateScore_spec`. -/
theorem calculateScore_spec_witness :
    calculateScore 49 = 5000 ∧ calculateScore 100 ≤ calculateScore 50 :=
  ⟨calculateScore_spec.1, calculateScore_spec.2.2 50 100 (by norm_num) (by norm_num)⟩

theorem calcDistance_eq (p1 p2 : LatLng) :
    calcDistance p1 p2 = 6371e3 * 2 *
      atan2 (Real.sqrt (haversineTerm p1 p2))
        (Real.sqrt (1 - haversineTerm p1 p2)) := rfl

theorem atan2_nonneg (y x : ℝ) (hy : 0 ≤ y) : 0 ≤ atan2 y x := by
  unfold atan2
  split_ifs with h1 h2 h3 h4
  · have h0 : Real.arctan 0 ≤ Real.arctan (y / x) :=
      Real.arctan_strictMono.monotone (div_nonneg hy h1.le)
    rwa [Real.arctan_zero] at h0
  · have := Real.neg_pi_div_two_lt_arctan (y / x)
    have := Real.pi_pos
    linarith
  · have := Real.pi_pos
    linarith
  · linarith
  · exact le_refl 0

theorem atan2_eq_zero_forces (y x : ℝ) (hy : 0 ≤ y) (hx : 0 ≤ x)
    (h : atan2 y x = 0) : y = 0 := by
  unfold atan2 at h
  split_ifs at h with h1 h2 h3 h4
  · have hdiv : y / x = 0 := Real.arctan_eq_zero_iff.mp h
    rcases div_eq_zero_iff.mp hdiv with h0 | h0
    · exact h0
    · exact absurd h0 h1.ne'
  · linarith
  · have := Real.pi_pos
    linarith
  · linarith
  · linarith

theorem haversineTerm_comm (p1 p2 : LatLng) :
    haversineTerm p1 p2 = haversineTerm p2 p1 := by
  unfold haversineTerm
  rw [show (p1.lat - p2.lat) * Real.pi / 180 / 2 =
        -((p2.lat - p1.lat) * Real.pi / 180 / 2) by ring,
      show (p1.lng - p2.lng) * Real.pi / 180 / 2 =
        -((p2.lng - p1.lng) * Real.pi / 180 / 2) by ring,
      Real.sin_neg, Real.sin_neg]
  ring

theorem calcDistance_of_term_zero (p1 p2 : LatLng)
    (h : haversineTerm p1 p2 = 0) : calcDistance p1 p2 = 0 := by
  rw [calcDistance_eq, h]
  rw [Real.sqrt_zero, show (1 : ℝ) - 0 = 1 by ring, Real.sqrt_one]
  unfold atan2
  rw [if_pos one_pos]
  norm_num [Real.arctan_zero]

theorem cos_deg_pos (t : ℝ) (h : |t| < 90) : 0 < Real.cos (t * Real.pi / 180) := by
  have hpi := Real.pi_pos
  rcases abs_lt.mp h with ⟨h1, h2⟩
  apply Real.cos_pos_of_mem_Ioo
  constructor
  · show -(Real.pi / 2) < t * Real.pi / 180
    nlinarith
  · show t * Real.pi / 180 < Real.pi / 2
    nlinarith

theorem haversineTerm_nonneg (p1 p2 : LatLng)
    (h1 : |p1.lat| < 90) (h2 : |p2.lat| < 90) : 0 ≤ haversineTerm p1 p2 := by
  unfold haversineTerm
  have hc1 := cos_deg_pos p1.lat h1
  have hc2 := cos_deg_pos p2.lat h2
  have hs1 := mul_self_nonneg (Real.sin ((p2.lat - p1.lat) * Real.pi / 180 / 2))
  have hs2 := mul_self_nonneg (Real.sin ((p2.lng - p1.lng) * Real.pi / 180 / 2))
  nlinarith [mul_nonneg (mul_nonneg hc1.le hc2.le) hs2]

theorem sin_half_deg_eq_zero (d : ℝ) (hlo : -360 < d) (hhi : d < 360)
    (h : Real.sin (d * Real.pi / 180 / 2) = 0) : d = 0 := by
  have hpi := Real.pi_pos
  have hb1 : -Real.pi < d * Real.pi / 180 / 2 := by nlinarith
  have hb2 : d * Real.pi / 180 / 2 < Real.pi := by nlinarith
  have hz := (Real.sin_eq_zero_iff_of_lt_of_lt hb1 hb2).mp h
  have hpn := Real.pi_ne_zero
  field_simp at hz
  exact (mul_eq_zero.mp hz).resolve_right hpn

/-- C7, counterexample: both latitudes 90 make the `cos·cos` factor exactly
zero, so two distinct points at the pole are at haversine distance 0 — the
distance is not zero only for equal points. -/
theorem calcDistance_zero_distinct_cex :
    calcDistance ⟨90, 0⟩ ⟨90, 1⟩ = 0 ∧ (⟨90, 0⟩ : LatLng) ≠ ⟨90, 1⟩ := by
  constructor
  · apply calcDistance_of_term_zero
    unfold haversineTerm
    simp only
    rw [show ((90 : ℝ) - 90) * Real.pi / 180 / 2 = 0 by ring,
        show (90 : ℝ) * Real.pi / 180 = Real.pi / 2 by ring,
        Real.sin_zero, Real.cos_pi_div_two]
    ring
  · intro h
    have := congrArg LatLng.lng h
    norm_num at this

/-- C7, amended: the haversine distance is symmetric, zero on equal points,
and never negative, for all inputs; and it is zero exactly on equal points
provided both latitudes are strictly inside (−90, 90) and both longitudes lie
in (−180, 180] — at the poles (or for longitudes wrapping a full turn) the
formula is exactly zero on distinct points.  Totality (never throws) holds by
construction: the embedding is a total function on `ℝ`. -/
theorem calcDistance_metric_spec :
    (∀ p1 p2 : LatLng, calcDistance p1 p2 = calcDistance p2 p1) ∧
    (∀ p : LatLng, calcDistance p p = 0) ∧
    (∀ p1 p2 : LatLng, 0 ≤ calcDistance p1 p2) ∧
    (∀ p1 p2 : LatLng, |p1.lat| < 90 → |p2.lat| < 90 →
      p1.lng ∈ Set.Ioc (-180 : ℝ) 180 → p2.lng ∈ Set.Ioc (-180 : ℝ) 180 →
      (calcDistance p1 p2 = 0 ↔ p1 = p2)) := by
  have hself : ∀ p : LatLng, calcDistance p p = 0 := by
    intro p
    apply calcDistance_of_term_zero
    unfold haversineTerm
    rw [sub_self, sub_self]
    norm_num
  refine ⟨?_, hself, ?_, ?_⟩
  · intro p1 p2
    rw [calcDistance_eq, calcDistance_eq, haversineTerm_comm]
  · intro p1 p2
    rw [calcDistance_eq]
    exact mul_nonneg (by norm_num)
      (atan2_nonneg (Real.sqrt (haversineTerm p1 p2))
        (Real.sqrt (1 - haversineTerm p1 p2)) (Real.sqrt_nonneg _))
  · intro p1 p2 hl1 hl2 hg1 hg2
    constructor
    · intro hzero
      rw [calcDistance_eq] at hzero
      have hat : atan2 (Real.sqrt (haversineTerm p1 p2))
          (Real.sqrt (1 - haversineTerm p1 p2)) = 0 := by
        have h2 := atan2_nonneg (Real.sqrt (haversineTerm p1 p2))
          (Real.sqrt (1 - haversineTerm p1 p2)) (Real.sqrt_nonneg _)
        norm_num at hzero
        linarith
      have hsroot : Real.sqrt (haversineTerm p1 p2) = 0 :=
        atan2_eq_zero_forces _ _ (Real.sqrt_nonneg _) (Real.sqrt_nonneg _) hat
      have hle : haversineTerm p1 p2 ≤ 0 := Real.sqrt_eq_zero'.mp hsroot
      have hge := haversineTerm_nonneg p1 p2 hl1 hl2
      have hzero2 : haversineTerm p1 p2 = 0 := le_antisymm hle hge
      unfold haversineTerm at hzero2
      have hc1 := cos_deg_pos p1.lat hl1
      have hc2 := cos_deg_pos p2.lat hl2
      have hs1 := mul_self_nonneg (Real.sin ((p2.lat - p1.lat) * Real.pi / 180 / 2))
      have hs2 := mul_self_nonneg (Real.sin ((p2.lng - p1.lng) * Real.pi / 180 / 2))
      have hsin1 : Real.sin ((p2.lat - p1.lat) * Real.pi / 180 / 2) = 0 := by
        have hsq : Real.sin ((p2.lat - p1.lat) * Real.pi / 180 / 2) *
            Real.sin ((p2.lat - p1.lat) * Real.pi / 180 / 2) = 0 := by
          nlinarith [mul_nonneg (mul_nonneg hc1.le hc2.le) hs2]
        exact mul_self_eq_zero.mp hsq
      rw [hsin1] at hzero2
      have hprod : Real.cos (p1.lat * Real.pi / 180) * Real.cos (p2.lat * Real.pi / 180) *
          Real.sin ((p2.lng - p1.lng) * Real.pi / 180 / 2) *
          Real.sin ((p2.lng - p1.lng) * Real.pi / 180 / 2) = 0 := by linarith
      have hsin2 : Real.sin ((p2.lng - p1.lng) * Real.pi / 180 / 2) = 0 := by
        rcases mul_eq_zero.mp hprod with h0 | h0
        · rcases mul_eq_zero.mp h0 with h00 | h00
          · exact absurd h00 (mul_pos hc1 hc2).ne'
          · exact h00
        · exact h0
      rcases abs_lt.mp hl1 with ⟨ha1, ha2⟩
      rcases abs_lt.mp hl2 with ⟨hb1, hb2⟩
      rcases hg1 with ⟨hc1lo, hc1hi⟩
      rcases hg2 with ⟨hc2lo, hc2hi⟩
      have hlat : p2.lat - p1.lat = 0 :=
        sin_half_deg_eq_zero _ (by linarith) (by linarith) hsin1
      have hlng : p2.lng - p1.lng = 0 :=
        sin_half_deg_eq_zero _ (by linarith) (by linarith) hsin2
      ext
      · linarith
      · linarith
    · intro h
      rw [h]
      exact hself p2

/-- Witness for `calcDistance_metric_spec` at the origin. -/
theorem calcDistance_metric_spec_witness :
    calcDistance ⟨0, 0⟩ ⟨0, 0⟩ = 0 ∧
    (calcDistance ⟨0, 0⟩ ⟨0, 0⟩ = 0 ↔ (⟨0, 0⟩ : LatLng) = ⟨0, 0⟩) :=
  ⟨calcDistance_metric_spec.2.1 ⟨0, 0⟩,
    calcDistance_metric_spec.2.2.2 ⟨0, 0⟩ ⟨0, 0⟩ (by norm_num) (by norm_num)
      (by constructor <;> norm_num) (by constructor <;> norm_num)⟩

/-! #### Support lemmas for the playthrough invariant -/

theorem recordedIds_append (xs : List CompletedItem) (it : CompletedItem) :
    recordedIds (xs ++ [it]) = recordedIds xs ++ [it.gameId] := by
  simp [recordedIds]

theorem guessKeys_append (xs : List GuessRow) (g : GuessRow) :
    guessKeys (xs ++ [g]) = guessKeys xs ++ [g.gameId] := by
  simp [guessKeys]

theorem lookupGuess_none_iff (rows : List GuessRow) (g : String) :
    lookupGuess rows g = none ↔ g ∉ guessKeys rows := by
  simp [lookupGuess, guessKeys, List.find?_eq_none, List.mem_map]

theorem lookupGuess_some_key (rows : List GuessRow) (g : String) (r : GuessRow)
    (h : lookupGuess rows g = some r) : g ∈ guessKeys rows ∧ r.gameId = g := by
  have hm := List.mem_of_find?_eq_some h
  have hp := List.find?_some h
  have he : r.gameId = g := by simpa using hp
  exact ⟨List.mem_map.mpr ⟨r, hm, he⟩, he⟩

theorem preAnsweredOf_keys (gameIds : List String) (gs : List GuessRow) (g : String) :
    g ∈ guessKeys (preAnsweredOf gameIds gs) ↔ g ∈ guessKeys gs ∧ g ∈ gameIds := by
  simp only [preAnsweredOf, guessKeys, List.mem_map, List.mem_filter, List.elem_iff]
  constructor
  · rintro ⟨r, ⟨hr, hmem⟩, rfl⟩
    exact ⟨⟨r, hr, rfl⟩, hmem⟩
  · rintro ⟨⟨r, hr, rfl⟩, hmem⟩
    exact ⟨r, ⟨hr, hmem⟩, rfl⟩

theorem sublist_take_mono (l : List String) (m n : ℕ) (h : m ≤ n) :
    List.Sublist (l.take m) (l.take n) := by
  have he : l.take m = (l.take n).take m := by rw [List.take_take, min_eq_left h]
  rw [he]
  exact List.take_sublist _ _

theorem take_succ_getElem (l : List String) (idx : ℕ) (hj : idx < l.length) :
    l.take (idx + 1) = l.take idx ++ [l[idx]] := by
  rw [List.take_succ]
  simp [List.get?_eq_getElem?, List.getElem?_eq_getElem hj]

theorem sublist_take_append (l : List String) (xs : List String) (m idx : ℕ)
    (hm : m ≤ idx) (hj : idx < l.length) (hs : List.Sublist xs (l.take m)) :
    List.Sublist (xs ++ [l[idx]]) (l.take (idx + 1)) := by
  rw [take_succ_getElem l idx hj]
  exact List.Sublist.append (hs.trans (sublist_take_mono l m idx hm))
    (List.Sublist.refl _)

theorem mem_take_getElem (l : List String) (m : ℕ) (g : String)
    (h : g ∈ l.take m) : ∃ j : ℕ, j < m ∧ ∃ hj : j < l.length, l[j] = g := by
  obtain ⟨i, hi, hv⟩ := List.getElem_of_mem h
  rw [List.getElem_take] at hv
  have hlen : i < m ∧ i < l.length := by
    simp only [List.length_take, lt_min_iff] at hi
    exact hi
  exact ⟨i, hlen.1, hlen.2, hv⟩

theorem covered_mono (gameIds avail gks ids : List String) (m n : ℕ)
    (h : Covered gameIds avail gks ids m) (hnm : n ≤ m) :
    Covered gameIds avail gks ids n :=
  fun j hj hjl => h j (lt_of_lt_of_le hj hnm) hjl

theorem covered_grow_ids (gameIds avail gks ids more : List String) (m : ℕ)
    (h : Covered gameIds avail gks ids m) :
    Covered gameIds avail gks (ids ++ more) m := by
  intro j hj hjl
  rcases h j hj hjl with hL | hR
  · exact Or.inl (List.mem_append_left _ hL)
  · exact Or.inr hR

theorem covered_grow_gks (gameIds avail gks ids : List String) (k : String)
    (m : ℕ) (h : Covered gameIds avail gks ids m) (hk : k ∈ avail) :
    Covered gameIds avail (gks ++ [k]) ids m := by
  intro j hj hjl
  rcases h j hj hjl with hL | ⟨ha, hg⟩
  · exact Or.inl hL
  · refine Or.inr ⟨ha, ?_⟩
    intro hmem
    rcases List.mem_append.mp hmem with hmem | hmem
    · exact hg hmem
    · rw [List.mem_singleton.mp hmem] at ha
      exact ha hk

theorem covered_extend (gameIds avail gks ids : List String) (index : ℕ)
    (h : Covered gameIds avail gks ids index) (hj : index < gameIds.length) :
    Covered gameIds avail gks (ids ++ [gameIds[index]]) (index + 1) := by
  intro j hjlt hjl
  rcases Nat.lt_or_ge j index with hlt | hge
  · rcases h j hlt hjl with hL | hR
    · exact Or.inl (List.mem_append_left _ hL)
    · exact Or.inr hR
  · have hje : j = index := by omega
    subst hje
    exact Or.inl (List.mem_append_right _ (by simp))

theorem itemsOK_grow_gks (gameIds avail gks : List String) (k : String)
    (p : CollectionProgress) (m : ℕ) (h : ItemsOK gameIds avail gks p m)
    (hk : k ∈ avail) : ItemsOK gameIds avail (gks ++ [k]) p m := by
  obtain ⟨h1, h2, h3, h4⟩ := h
  exact ⟨h1, fun g hg => List.mem_append_left _ (h2 g hg), h3,
    covered_grow_gks gameIds avail gks _ k m h4 hk⟩

theorem preCover_mono (gameIds : List String) (pre : List GuessRow)
    (ids : List String) (b b' : ℕ) (h : PreCover gameIds pre ids b)
    (hb : b ≤ b') : PreCover gameIds pre ids b' := by
  intro g hg
  rcases h g hg with hL | ⟨j, hj, hjl, he⟩
  · exact Or.inl hL
  · exact Or.inr ⟨j, by omega, hjl, he⟩

theorem gk_elim (gameIds avail : List String) (w : World)
    (hgk : ∀ g ∈ guessKeys w.guesses, g ∈ gameIds →
      g ∈ guessKeys w.preAnswered ∨ g ∈ avail ∨ w.playState = .done)
    (hnd : w.playState ≠ .done) :
    ∀ (X : Prop), ∀ g ∈ guessKeys w.guesses, g ∈ gameIds →
      g ∈ guessKeys w.preAnswered ∨ g ∈ avail ∨ X := by
  intro X g h1 h2
  rcases hgk g h1 h2 with h | h | h
  · exact Or.inl h
  · exact Or.inr (Or.inl h)
  · exact absurd h hnd

theorem worldInv_next (gameIds avail : List String) (w : World) (index : ℕ)
    (h : w.playState = .historical index ∨ w.playState = .reviewing index)
    (hw : WorldInv gameIds avail w) :
    WorldInv gameIds avail (handleNext w index) := by
  obtain ⟨⟨m, hitems, hphase⟩, hstored, hpk, hgk⟩ := hw
  have hgkX := gk_elim gameIds avail w hgk
    (by rcases h with h | h <;> rw [h] <;> simp)
  refine ⟨⟨m, hitems, ?_⟩, hstored, hpk, hgkX _⟩
  have hpcm : index < m ∧ PreCover gameIds w.preAnswered
      (recordedIds w.progress.completedItems) (index + 1) := by
    rcases h with h | h <;> · simp only [PhaseOK, h] at hphase; exact hphase
  show (index + 1) ≤ m ∧ _
  exact ⟨by omega, hpcm.2⟩

theorem worldInv_external (gameIds avail : List String) (w : World) (g : GuessRow)
    (hg : g.gameId ∈ avail) (hw : WorldInv gameIds avail w) :
    WorldInv gameIds avail { w with guesses := w.guesses ++ [g] } := by
  obtain ⟨⟨m, hitems, hphase⟩, hstored, hpk, hgk⟩ := hw
  refine ⟨⟨m, ?_, hphase⟩, ?_, ?_, ?_⟩
  · show ItemsOK gameIds avail (guessKeys (w.guesses ++ [g])) w.progress m
    rw [guessKeys_append]
    exact itemsOK_grow_gks gameIds avail _ _ w.progress m hitems hg
  · intro p hp
    obtain ⟨m2, h2⟩ := hstored p hp
    refine ⟨m2, ?_⟩
    show ItemsOK gameIds avail (guessKeys (w.guesses ++ [g])) p m2
    rw [guessKeys_append]
    exact itemsOK_grow_gks gameIds avail _ _ p m2 h2 hg
  · intro x hx
    show x ∈ guessKeys (w.guesses ++ [g])
    rw [guessKeys_append]
    exact List.mem_append_left _ (hpk x hx)
  · intro x hx hxg
    rw [show ({ w with guesses := w.guesses ++ [g] } : World).guesses =
      w.guesses ++ [g] from rfl, guessKeys_append] at hx
    rcases List.mem_append.mp hx with hx | hx
    · exact hgk x hx hxg
    · rw [List.mem_singleton.mp hx]
      exact Or.inr (Or.inl hg)

theorem worldInv_restart (gameIds avail : List String) (w : World)
    (collectionId userId : String) (now : ℤ) (hw : WorldInv gameIds avail w) :
    WorldInv gameIds avail (startSession gameIds collectionId userId now w) := by
  obtain ⟨_, hstored, hpk, hgk⟩ := hw
  have hpk2 : ∀ x ∈ guessKeys (preAnsweredOf gameIds w.guesses),
      x ∈ guessKeys w.guesses :=
    fun x hx => ((preAnsweredOf_keys gameIds w.guesses x).mp hx).1
  have hgk2 : ∀ x ∈ guessKeys w.guesses, x ∈ gameIds →
      x ∈ guessKeys (preAnsweredOf gameIds w.guesses) ∨ x ∈ avail ∨
        (startSession gameIds collectionId userId now w).playState = .done :=
    fun x hx hxg => Or.inl ((preAnsweredOf_keys gameIds w.guesses x).mpr ⟨hx, hxg⟩)
  cases hst : w.stored with
  | none =>
      refine ⟨⟨0, ?_, ?_⟩, ?_, hpk2, hgk2⟩
      · show ItemsOK gameIds avail (guessKeys w.guesses)
          (w.stored.getD (freshProgress collectionId userId now)) 0
        rw [hst]
        refine ⟨by simp [freshProgress], by simp [freshProgress, recordedIds],
          by simp [freshProgress, recordedIds], ?_⟩
        intro j hj
        omega
      · show PhaseOK gameIds avail (startSession gameIds collectionId userId now w) 0
        unfold startSession PhaseOK
        rw [hst]
        refine ⟨by simp [freshProgress], ?_⟩
        intro x hx
        simp [freshProgress, recordedIds] at hx
      · intro p hp
        rw [show (startSession gameIds collectionId userId now w).stored =
          w.stored from rfl, hst] at hp
        cases hp
  | some p =>
      obtain ⟨m2, hitems2⟩ := hstored p hst
      have hgetd : w.stored.getD (freshProgress collectionId userId now) = p := by
        rw [hst]; rfl
      refine ⟨⟨m2, ?_, ?_⟩, ?_, hpk2, hgk2⟩
      · show ItemsOK gameIds avail (guessKeys w.guesses)
          (w.stored.getD (freshProgress collectionId userId now)) m2
        rw [hgetd]
        exact hitems2
      · show PhaseOK gameIds avail (startSession gameIds collectionId userId now w) m2
        unfold startSession PhaseOK
        rw [hgetd]
        obtain ⟨hsum, hgks, hsub, hcov⟩ := hitems2
        constructor
        · have hlen := hsub.length_le
          have : (recordedIds p.completedItems).length = p.completedItems.length := by
            simp [recordedIds]
          rw [this] at hlen
          simp only [List.length_take, le_min_iff, lt_min_iff] at hlen
          omega
        · intro x hx
          left
          exact (preAnsweredOf_keys gameIds w.guesses x).mpr
            ⟨hgks x hx, (List.take_sublist m2 gameIds).subset (hsub.subset hx)⟩
      · intro q hq
        rw [show (startSession gameIds collectionId userId now w).stored =
          w.stored from rfl, hst] at hq
        cases hq
        exact ⟨m2, hitems2⟩

theorem worldInv_submit (gameIds avail : List String) (w : World) (index : ℕ)
    (score distance : ℤ) (h : w.playState = .playing index)
    (hw : WorldInv gameIds avail w) :
    WorldInv gameIds avail (submitGuess gameIds w index score distance true) := by
  obtain ⟨⟨m, hitems, hphase⟩, hstored, hpk, hgk⟩ := hw
  have hgkX := gk_elim gameIds avail w hgk (by rw [h]; simp)
  simp only [PhaseOK, h] at hphase
  obtain ⟨heq, hpc, hj, hnotmem, hav, hlk⟩ := hphase
  subst heq
  obtain ⟨hsum, hgks, hsub, hcov⟩ := hitems
  have hgd : gameIds.getD index "" = gameIds[index] := List.getD_eq_getElem _ _ hj
  have hit : (⟨gameIds.getD index "", score, distance⟩ : CompletedItem) =
      ⟨gameIds[index], score, distance⟩ := by rw [hgd]
  have hguesses : (submitGuess gameIds w index score distance true).guesses =
      w.guesses ++ [⟨gameIds[index], score, distance⟩] := by
    show w.guesses ++ [(⟨gameIds.getD index "", score, distance⟩ : GuessRow)] = _
    rw [hgd]
  have hprog : (submitGuess gameIds w index score distance true).progress =
      appendItem w.progress ⟨gameIds[index], score, distance⟩ := by
    show appendItem w.progress ⟨gameIds.getD index "", score, distance⟩ = _
    rw [hgd]
  have hitems2 : ItemsOK gameIds avail (guessKeys w.guesses ++ [gameIds[index]])
      (appendItem w.progress ⟨gameIds[index], score, distance⟩) (index + 1) := by
    refine ⟨?_, ?_, ?_, ?_⟩
    · simp only [appendItem, List.map_append, List.sum_append, hsum]
      simp
    · simp only [appendItem, recordedIds_append]
      intro x hx
      rcases List.mem_append.mp hx with hx | hx
      · exact List.mem_append_left _ (hgks x hx)
      · rw [List.mem_singleton.mp hx]
        exact List.mem_append_right _ (by simp)
    · simp only [appendItem, recordedIds_append]
      exact sublist_take_append gameIds _ index index (le_refl index) hj hsub
    · simp only [appendItem, recordedIds_append]
      refine covered_extend gameIds avail _ _ index ?_ hj
      exact covered_grow_gks gameIds avail _ _ _ index hcov hav
  refine ⟨⟨index + 1, ?_, ?_⟩, ?_, ?_, ?_⟩
  · rw [show ItemsOK gameIds avail
        (guessKeys (submitGuess gameIds w index score distance true).guesses)
        (submitGuess gameIds w index score distance true).progress (index + 1) =
      ItemsOK gameIds avail (guessKeys (w.guesses ++ [⟨gameIds[index], score, distance⟩]))
        (appendItem w.progress ⟨gameIds[index], score, distance⟩) (index + 1) from by
      rw [hguesses, hprog]]
    rw [guessKeys_append]
    exact hitems2
  · unfold PhaseOK
    refine ⟨by omega, ?_⟩
    rw [show (submitGuess gameIds w index score distance true).progress.completedItems =
      w.progress.completedItems ++ [⟨gameIds[index], score, distance⟩] from by
      rw [hprog]; rfl]
    rw [recordedIds_append]
    intro x hx
    rcases List.mem_append.mp hx with hx | hx
    · exact preCover_mono gameIds w.preAnswered _ index (index + 1) hpc (by omega) x hx
    · right
      exact ⟨index, by omega, hj, (List.mem_singleton.mp hx).symm⟩
  · intro p hp
    rw [show (submitGuess gameIds w index score distance true).stored =
      some (appendItem w.progress ⟨gameIds[index], score, distance⟩) from by
      show some (appendItem w.progress ⟨gameIds.getD index "", score, distance⟩) = _
      rw [hgd]] at hp
    cases hp
    refine ⟨index + 1, ?_⟩
    rw [hguesses, guessKeys_append]
    exact hitems2
  · intro x hx
    rw [hguesses, guessKeys_append]
    exact List.mem_append_left _ (hpk x hx)
  · intro x hx hxg
    rw [hguesses, guessKeys_append] at hx
    rcases List.mem_append.mp hx with hx | hx
    · exact hgkX _ x hx hxg
    · rw [List.mem_singleton.mp hx]
      exact Or.inr (Or.inl hav)

theorem worldInv_load (gameIds avail : List String) (hnd : gameIds.Nodup)
    (w : World) (index : ℕ) (now : ℤ) (h : w.playState = .loading index)
    (hw : WorldInv gameIds avail w) :
    WorldInv gameIds avail (loadQuestion gameIds avail now w index) := by
  obtain ⟨⟨m, hitems, hphase⟩, hstored, hpk, hgk⟩ := hw
  have hgkX := gk_elim gameIds avail w hgk (by rw [h]; simp)
  simp only [PhaseOK, h] at hphase
  obtain ⟨hle, hpc⟩ := hphase
  obtain ⟨hsum, hgks, hsub, hcov⟩ := hitems
  unfold loadQuestion
  by_cases hlen : gameIds.length ≤ index
  · rw [dif_pos hlen]
    refine ⟨⟨m, ⟨hsum, hgks, hsub, hcov⟩, trivial⟩, ?_, hpk,
      fun g h1 h2 => Or.inr (Or.inr rfl)⟩
    intro p hp
    cases hp
    exact ⟨m, hsum, hgks, hsub, hcov⟩
  · rw [dif_neg hlen]
    have hjlen : index < gameIds.length := by omega
    cases hlk : lookupGuess w.preAnswered gameIds[index] with
    | some row =>
        simp only [List.get_eq_getElem, hlk]
        have hprekey : gameIds[index] ∈ guessKeys w.preAnswered :=
          (lookupGuess_some_key _ _ _ hlk).1
        by_cases hmem : gameIds[index] ∈ recordedIds w.progress.completedItems
        · rw [if_pos hmem]
          -- already recorded: only the play state changes
          have hidx : index < m := by
            obtain ⟨j, hjm, hjl, hje⟩ :=
              mem_take_getElem gameIds m _ (hsub.subset hmem)
            have : j = index := (hnd.getElem_inj_iff).mp hje
            omega
          refine ⟨⟨m, ⟨hsum, hgks, hsub, hcov⟩, hidx, ?_⟩, hstored, hpk, hgkX _⟩
          exact preCover_mono gameIds w.preAnswered _ index (index + 1) hpc (by omega)
        · rw [if_neg hmem]
          -- fresh historical record: append it
          have hm : index = m := by
            rcases Nat.lt_or_ge index m with hlt | hge
            · rcases hcov index hlt hjlen with hL | ⟨_, hngks⟩
              · exact absurd hL hmem
              · exact absurd (hpk _ hprekey) hngks
            · omega
          subst hm
          have hitems2 : ItemsOK gameIds avail (guessKeys w.guesses)
              (appendItem w.progress ⟨gameIds[index], row.score, row.distance⟩)
              (index + 1) := by
            refine ⟨?_, ?_, ?_, ?_⟩
            · simp only [appendItem, List.map_append, List.sum_append, hsum]
              simp
            · simp only [appendItem, recordedIds_append]
              intro x hx
              rcases List.mem_append.mp hx with hx | hx
              · exact hgks x hx
              · rw [List.mem_singleton.mp hx]
                exact hpk _ hprekey
            · simp only [appendItem, recordedIds_append]
              exact sublist_take_append gameIds _ index index (le_refl index)
                hjlen hsub
            · simp only [appendItem, recordedIds_append]
              exact covered_extend gameIds avail _ _ index hcov hjlen
          refine ⟨⟨index + 1, hitems2, ?_, ?_⟩, ?_, hpk, hgkX _⟩
          · omega
          · show PreCover gameIds w.preAnswered
              (recordedIds (w.progress.completedItems ++
                [⟨gameIds[index], row.score, row.distance⟩])) (index + 1)
            rw [recordedIds_append]
            intro x hx
            rcases List.mem_append.mp hx with hx | hx
            · exact preCover_mono gameIds w.preAnswered _ index (index + 1) hpc
                (by omega) x hx
            · rw [List.mem_singleton.mp hx]
              exact Or.inl hprekey
          · intro p hp
            cases hp
            exact ⟨index + 1, hitems2⟩
    | none =>
        simp only [List.get_eq_getElem, hlk]
        have hnokey : gameIds[index] ∉ guessKeys w.preAnswered :=
          (lookupGuess_none_iff _ _).mp hlk
        have hnm : gameIds[index] ∉ recordedIds w.progress.completedItems := by
          intro hmem
          rcases hpc _ hmem with hL | ⟨j, hjlt, hjl, hje⟩
          · exact hnokey hL
          · have : j = index := (hnd.getElem_inj_iff).mp hje
            omega
        by_cases hav : gameIds[index] ∈ avail
        · rw [if_pos hav]
          -- start playing this question
          have hm : index = m := by
            rcases Nat.lt_or_ge index m with hlt | hge
            · rcases hcov index hlt hjlen with hL | ⟨hna, _⟩
              · exact absurd hL hnm
              · exact absurd hav hna
            · omega
          exact ⟨⟨m, ⟨hsum, hgks, hsub, hcov⟩, hm, hpc, hjlen, hnm, hav, hlk⟩,
            hstored, hpk, hgkX _⟩
        · rw [if_neg hav]
          -- skip the missing question
          rcases Nat.lt_or_ge index m with hlt | hge
          · exact ⟨⟨m, ⟨hsum, hgks, hsub, hcov⟩, by omega,
              preCover_mono gameIds w.preAnswered _ index (index + 1) hpc
                (by omega)⟩, hstored, hpk, hgkX _⟩
          · have hm : index = m := by omega
            subst hm
            have hngks : gameIds[index] ∉ guessKeys w.guesses := by
              intro hgksmem
              rcases hgkX False _ hgksmem (List.getElem_mem hjlen) with hL | hR | hD
              · exact hnokey hL
              · exact hav hR
              · exact hD
            refine ⟨⟨index + 1, ⟨hsum, hgks, ?_, ?_⟩, by omega,
              preCover_mono gameIds w.preAnswered _ index (index + 1) hpc
                (by omega)⟩, hstored, hpk, hgkX _⟩
            · exact hsub.trans (sublist_take_mono gameIds index (index + 1)
                (by omega))
            · intro j hjlt hjl
              rcases Nat.lt_or_ge j index with hjlt2 | hjge
              · exact hcov j hjlt2 hjl
              · have : j = index := by omega
                subst this
                exact Or.inr ⟨hav, hngks⟩

theorem worldInv_init (gameIds avail : List String) (G0 : List GuessRow) :
    WorldInv gameIds avail (initWorld G0) := by
  refine ⟨⟨0, ?_, trivial⟩, ?_, ?_, ?_⟩
  · refine ⟨by simp [initWorld, freshProgress],
      by simp [initWorld, freshProgress, recordedIds],
      by simp [initWorld, freshProgress, recordedIds], ?_⟩
    intro j hj
    omega
  · intro p hp
    cases hp
  · intro g hg
    simp [initWorld, guessKeys] at hg
  · intro g hg hmem
    exact Or.inr (Or.inr rfl)

theorem worldInv_step (gameIds avail : List String) (hnd : gameIds.Nodup)
    (w w2 : World) (hw : WorldInv gameIds avail w)
    (hs : StepGood gameIds avail w w2) : WorldInv gameIds avail w2 := by
  cases hs with
  | load index now h => exact worldInv_load gameIds avail hnd w index now h hw
  | submit index score distance h =>
      exact worldInv_submit gameIds avail w index score distance h hw
  | next index h => exact worldInv_next gameIds avail w index h hw
  | restart collectionId userId now =>
      exact worldInv_restart gameIds avail w collectionId userId now hw
  | externalGuess g hg => exact worldInv_external gameIds avail w g hg hw

theorem reachableGood_inv (gameIds avail : List String) (hnd : gameIds.Nodup)
    (G0 : List GuessRow) (w : World) (hr : ReachableGood gameIds avail G0 w) :
    WorldInv gameIds avail w := by
  unfold ReachableGood at hr
  induction hr with
  | refl => exact worldInv_init gameIds avail G0
  | tail hab hbc ih => exact worldInv_step gameIds avail hnd _ _ ih hbc

/-- The unconditional part: every mutation of the progress object (fresh
creation, historical append, submit append, finalize, restore) keeps
`totalScore` equal to the sum of the recorded scores, for the in-memory
progress and the locally stored copy alike. -/
theorem stepAny_sum (gameIds : List String) (w w2 : World)
    (hs : StepAny gameIds w w2)
    (hw : w.progress.totalScore = (w.progress.completedItems.map (·.score)).sum ∧
      ∀ p, w.stored = some p →
        p.totalScore = (p.completedItems.map (·.score)).sum) :
    w2.progress.totalScore = (w2.progress.completedItems.map (·.score)).sum ∧
      ∀ p, w2.stored = some p →
        p.totalScore = (p.completedItems.map (·.score)).sum := by
  obtain ⟨hsum, hstored⟩ := hw
  cases hs with
  | load index availableNow now h =>
      unfold loadQuestion
      by_cases hlen : gameIds.length ≤ index
      · rw [dif_pos hlen]
        refine ⟨hsum, ?_⟩
        intro p hp
        cases hp
        exact hsum
      · rw [dif_neg hlen]
        cases hlk : lookupGuess w.preAnswered gameIds[index] with
        | some row =>
            simp only [List.get_eq_getElem, hlk]
            by_cases hmem : gameIds[index] ∈ recordedIds w.progress.completedItems
            · rw [if_pos hmem]
              exact ⟨hsum, hstored⟩
            · rw [if_neg hmem]
              have happ : (appendItem w.progress
                  ⟨gameIds[index], row.score, row.distance⟩).totalScore =
                  ((appendItem w.progress
                    ⟨gameIds[index], row.score, row.distance⟩).completedItems.map
                      (·.score)).sum := by
                simp only [appendItem, List.map_append, List.sum_append, hsum]
                simp
              refine ⟨happ, ?_⟩
              intro p hp
              cases hp
              exact happ
        | none =>
            simp only [List.get_eq_getElem, hlk]
            by_cases hav : gameIds[index] ∈ availableNow
            · rw [if_pos hav]
              exact ⟨hsum, hstored⟩
            · rw [if_neg hav]
              exact ⟨hsum, hstored⟩
  | submit index score distance persistOk h =>
      have happ : (appendItem w.progress
          ⟨gameIds.getD index "", score, distance⟩).totalScore =
          ((appendItem w.progress
            ⟨gameIds.getD index "", score, distance⟩).completedItems.map
              (·.score)).sum := by
        simp only [appendItem, List.map_append, List.sum_append, hsum]
        simp
      refine ⟨happ, ?_⟩
      intro p hp
      cases hp
      exact happ
  | next index h => exact ⟨hsum, hstored⟩
  | restart collectionId userId now =>
      cases hst : w.stored with
      | none =>
          have hprog : (startSession gameIds collectionId userId now w).progress =
              freshProgress collectionId userId now := by
            show w.stored.getD (freshProgress collectionId userId now) = _
            rw [hst]
            rfl
          refine ⟨?_, ?_⟩
          · rw [hprog]
            simp [freshProgress]
          · intro p hp
            exact hstored p hp
      | some q =>
          have hprog : (startSession gameIds collectionId userId now w).progress = q := by
            show w.stored.getD (freshProgress collectionId userId now) = _
            rw [hst]
            rfl
          refine ⟨?_, ?_⟩
          · rw [hprog]
            exact hstored q hst
          · intro p hp
            exact hstored p hp
  | externalGuess g => exact ⟨hsum, hstored⟩

theorem reachableAny_sum (gameIds : List String) (G0 : List GuessRow) (w : World)
    (hr : ReachableAny gameIds G0 w) :
    w.progress.totalScore = (w.progress.completedItems.map (·.score)).sum := by
  unfold ReachableAny at hr
  have h : w.progress.totalScore = (w.progress.completedItems.map (·.score)).sum ∧
      ∀ p, w.stored = some p →
        p.totalScore = (p.completedItems.map (·.score)).sum := by
    induction hr with
    | refl =>
        refine ⟨by simp [initWorld, freshProgress], ?_⟩
        intro p hp
        cases hp
    | tail hab hbc ih => exact stepAny_sum gameIds _ _ hbc ih
  exact h.1

/-- C2, amended: in every reachable engine state — under arbitrary environment
behaviour, including failing guess writes, per-call game availability and
arbitrary re-entry — `totalScore` equals the sum of the scores of
`completedItems`.  The two structural invariants (at most one entry per
challenge id, entries in the collection's order, stated together as: the
recorded ids are a subsequence of the duplicate-free `gameIds`) hold in every
state reachable in well-behaved runs: runs in which the collection's id list
has no duplicates, every guess write persists, game availability is a fixed
set across the run, and guesses recorded outside the collection flow are for
available games. -/
theorem collectionProgress_invariants :
    (∀ (gameIds : List String) (G0 : List GuessRow) (w : World),
      ReachableAny gameIds G0 w →
      w.progress.totalScore = (w.progress.completedItems.map (·.score)).sum) ∧
    (∀ (gameIds avail : List String) (G0 : List GuessRow) (w : World),
      gameIds.Nodup → ReachableGood gameIds avail G0 w →
      (recordedIds w.progress.completedItems).Nodup ∧
      List.Sublist (recordedIds w.progress.completedItems) gameIds) := by
  constructor
  · exact fun gameIds G0 w hr => reachableAny_sum gameIds G0 w hr
  · intro gameIds avail G0 w hnd hr
    obtain ⟨⟨m, ⟨_, _, hsub, _⟩, _⟩, _, _, _⟩ :=
      reachableGood_inv gameIds avail hnd G0 w hr
    have hsub2 : List.Sublist (recordedIds w.progress.completedItems) gameIds :=
      hsub.trans (List.take_sublist m gameIds)
    exact ⟨hsub2.nodup hnd, hsub2⟩

/-- Witness for `collectionProgress_invariants` at the initial state of a
one-question collection. -/
theorem collectionProgress_invariants_witness :
    (initWorld []).progress.totalScore =
      (((initWorld []).progress.completedItems).map (·.score)).sum ∧
    (recordedIds (initWorld []).progress.completedItems).Nodup :=
  ⟨collectionProgress_invariants.1 ["a"] [] (initWorld [])
      Relation.ReflTransGen.refl,
    (collectionProgress_invariants.2 ["a"] [] [] (initWorld []) (by decide)
      Relation.ReflTransGen.refl).1⟩

/-- C2, counterexample: the claim as stated fails on a reachable state.  In a
two-question collection where question 0 does not load (deleted game or failed
fetch) and the guess insert for question 1 silently fails (`saveGuess` only
logs its error), resuming the collection re-plays question 1 — its id is
missing from the pre-answered query result — and appends a duplicate entry to
`completedItems`. -/
theorem collectionProgress_dup_reachable_cex :
    ∃ w : World, ReachableAny ["g0", "g1"] [] w ∧
      ¬ (recordedIds w.progress.completedItems).Nodup := by
  let w0 : World := initWorld []
  let w1 := startSession ["g0", "g1"] "c" "u" 0 w0
  let w2 := loadQuestion ["g0", "g1"] [] 0 w1 0
  let w3 := loadQuestion ["g0", "g1"] ["g1"] 0 w2 1
  let w4 := submitGuess ["g0", "g1"] w3 1 100 5 false
  let w5 := startSession ["g0", "g1"] "c" "u" 1 w4
  let w6 := loadQuestion ["g0", "g1"] ["g1"] 1 w5 1
  let w7 := submitGuess ["g0", "g1"] w6 1 100 5 true
  refine ⟨w7, ?_, by decide⟩
  have s1 : StepAny ["g0", "g1"] w0 w1 := StepAny.restart w0 "c" "u" 0
  have s2 : StepAny ["g0", "g1"] w1 w2 := StepAny.load w1 0 [] 0 (by decide)
  have s3 : StepAny ["g0", "g1"] w2 w3 := StepAny.load w2 1 ["g1"] 0 (by decide)
  have s4 : StepAny ["g0", "g1"] w3 w4 :=
    StepAny.submit w3 1 100 5 false (by decide)
  have s5 : StepAny ["g0", "g1"] w4 w5 := StepAny.restart w4 "c" "u" 1
  have s6 : StepAny ["g0", "g1"] w5 w6 := StepAny.load w5 1 ["g1"] 1 (by decide)
  have s7 : StepAny ["g0", "g1"] w6 w7 :=
    StepAny.submit w6 1 100 5 true (by decide)
  exact ((((((Relation.ReflTransGen.refl.tail s1).tail s2).tail s3).tail
    s4).tail s5).tail s6).tail s7

namespace CoordTransform

theorem not_outOfChina_iff (lng lat : ℝ) :
    ¬ outOfChina lng lat ↔
      72.004 ≤ lng ∧ lng ≤ 137.8347 ∧ 0.8293 ≤ lat ∧ lat ≤ 55.8271 := by
  simp [outOfChina, not_or, not_lt]

theorem transformLat_bound (x y : ℝ) (hx : |x| ≤ 33) (hy : |y| ≤ 35) :
    |transformLat x y| ≤ 1020 := by
  obtain ⟨hx1, hx2⟩ := abs_le.mp hx
  obtain ⟨hy1, hy2⟩ := abs_le.mp hy
  have hs1 := abs_le.mp (Real.abs_sin_le_one (6.0 * x * PI))
  have hs2 := abs_le.mp (Real.abs_sin_le_one (2.0 * x * PI))
  have hs3 := abs_le.mp (Real.abs_sin_le_one (y * PI))
  have hs4 := abs_le.mp (Real.abs_sin_le_one (y / 3.0 * PI))
  have hs5 := abs_le.mp (Real.abs_sin_le_one (y / 12.0 * PI))
  have hs6 := abs_le.mp (Real.abs_sin_le_one (y * PI / 30.0))
  have hq0 : 0 ≤ Real.sqrt |x| := Real.sqrt_nonneg _
  have hq : Real.sqrt |x| ≤ 6 := by
    have h36 : |x| ≤ 36 := by linarith
    calc Real.sqrt |x| ≤ Real.sqrt 36 := Real.sqrt_le_sqrt h36
      _ = 6 := by
        rw [show (36 : ℝ) = 6 ^ 2 by norm_num, Real.sqrt_sq (by norm_num)]
  have hyy : y * y ≤ 1225 := by nlinarith
  have hyy0 : 0 ≤ y * y := mul_self_nonneg y
  have hxy1 : x * y ≤ 1155 := by nlinarith
  have hxy2 : -1155 ≤ x * y := by nlinarith
  rw [transformLat, abs_le]
  constructor <;> linarith

theorem transformLng_bound (x y : ℝ) (hx : |x| ≤ 33) (hy : |y| ≤ 35) :
    |transformLng x y| ≤ 1020 := by
  obtain ⟨hx1, hx2⟩ := abs_le.mp hx
  obtain ⟨hy1, hy2⟩ := abs_le.mp hy
  have hs1 := abs_le.mp (Real.abs_sin_le_one (6.0 * x * PI))
  have hs2 := abs_le.mp (Real.abs_sin_le_one (2.0 * x * PI))
  have hs3 := abs_le.mp (Real.abs_sin_le_one (x * PI))
  have hs4 := abs_le.mp (Real.abs_sin_le_one (x / 3.0 * PI))
  have hs5 := abs_le.mp (Real.abs_sin_le_one (x / 12.0 * PI))
  have hs6 := abs_le.mp (Real.abs_sin_le_one (x / 30.0 * PI))
  have hq0 : 0 ≤ Real.sqrt |x| := Real.sqrt_nonneg _
  have hq : Real.sqrt |x| ≤ 6 := by
    have h36 : |x| ≤ 36 := by linarith
    calc Real.sqrt |x| ≤ Real.sqrt 36 := Real.sqrt_le_sqrt h36
      _ = 6 := by
        rw [show (36 : ℝ) = 6 ^ 2 by norm_num, Real.sqrt_sq (by norm_num)]
  have hxx : x * x ≤ 1089 := by nlinarith
  have hxx0 : 0 ≤ x * x := mul_self_nonneg x
  have hxy1 : x * y ≤ 1155 := by nlinarith
  have hxy2 : -1155 ≤ x * y := by nlinarith
  rw [transformLng, abs_le]
  constructor <;> linarith

theorem magic_bounds (t : ℝ) : 0.99 ≤ magic t ∧ magic t ≤ 1 := by
  have h1 := Real.sin_le_one (radLat t)
  have h2 := Real.neg_one_le_sin (radLat t)
  have h3 := mul_self_nonneg (Real.sin (radLat t))
  have hss : Real.sin (radLat t) * Real.sin (radLat t) ≤ 1 := by nlinarith
  unfold magic ee
  constructor <;> nlinarith

theorem sqrt_magic_bounds (t : ℝ) :
    0 < Real.sqrt (magic t) ∧ Real.sqrt (magic t) ≤ 1 := by
  obtain ⟨hm1, hm2⟩ := magic_bounds t
  constructor
  · exact Real.sqrt_pos.mpr (by linarith)
  · rw [show (1 : ℝ) = Real.sqrt 1 from Real.sqrt_one.symm]
    exact Real.sqrt_le_sqrt hm2

theorem dLat_bound (wgsLat wgsLng : ℝ) (h1 : 72.004 ≤ wgsLng)
    (h2 : wgsLng ≤ 137.8347) (h3 : 0.8293 ≤ wgsLat) (h4 : wgsLat ≤ 55.8271) :
    |dLat wgsLat wgsLng| ≤ 1 / 100 := by
  have ht := transformLat_bound (wgsLng - 105.0) (wgsLat - 35.0)
    (by rw [abs_le]; constructor <;> linarith)
    (by rw [abs_le]; constructor <;> linarith)
  obtain ⟨hm1, hm2⟩ := magic_bounds wgsLat
  obtain ⟨hsq0, hsq1⟩ := sqrt_magic_bounds wgsLat
  have hm0 : (0 : ℝ) < magic wgsLat := by linarith
  have hden1 : 0 < magic wgsLat * Real.sqrt (magic wgsLat) := mul_pos hm0 hsq0
  have hden2 : magic wgsLat * Real.sqrt (magic wgsLat) ≤ 1 :=
    mul_le_one hm2 hsq0.le hsq1
  have hquot : a * (1 - ee) ≤
      a * (1 - ee) / (magic wgsLat * Real.sqrt (magic wgsLat)) := by
    rw [le_div_iff hden1]
    exact mul_le_of_le_one_right (by norm_num [a, ee]) hden2
  have hA : (6335552 : ℝ) ≤
      a * (1 - ee) / (magic wgsLat * Real.sqrt (magic wgsLat)) :=
    le_trans (by norm_num [a, ee]) hquot
  have hPIlo : (3.14 : ℝ) ≤ PI := by norm_num [PI]
  have hden : (19893633 : ℝ) ≤
      a * (1 - ee) / (magic wgsLat * Real.sqrt (magic wgsLat)) * PI := by
    calc (19893633 : ℝ) ≤ 6335552 * 3.14 := by norm_num
      _ ≤ _ := mul_le_mul hA hPIlo (by norm_num) (by linarith)
  have hnum : |transformLat (wgsLng - 105.0) (wgsLat - 35.0) * 180.0| ≤ 183600 := by
    rw [abs_mul, show |(180.0 : ℝ)| = 180 by norm_num]
    linarith [abs_nonneg (transformLat (wgsLng - 105.0) (wgsLat - 35.0))]
  rw [dLat, abs_div, abs_of_pos (by linarith : (0 : ℝ) <
    a * (1 - ee) / (magic wgsLat * Real.sqrt (magic wgsLat)) * PI)]
  calc |transformLat (wgsLng - 105.0) (wgsLat - 35.0) * 180.0| /
      (a * (1 - ee) / (magic wgsLat * Real.sqrt (magic wgsLat)) * PI) ≤
      183600 / 19893633 := div_le_div (by norm_num) hnum (by norm_num) hden
    _ ≤ 1 / 100 := by norm_num

theorem cos_radLat_lb (t : ℝ) (h3 : 0.8293 ≤ t) (h4 : t ≤ 55.8271) :
    0.52 ≤ Real.cos (radLat t) := by
  have hPIlo : (3.14 : ℝ) ≤ PI := by norm_num [PI]
  have hPIhi : PI ≤ 3.1416 := by norm_num [PI]
  have hr1 : 0 ≤ radLat t := by
    unfold radLat
    exact mul_nonneg (div_nonneg (by linarith) (by norm_num)) (by linarith)
  have hr2 : radLat t ≤ 0.9746 := by
    unfold radLat
    nlinarith [mul_le_mul h4 hPIhi (by linarith) (by norm_num : (0 : ℝ) ≤ 55.8271)]
  have hcos := Real.one_sub_sq_div_two_le_cos (x := radLat t)
  nlinarith [hr1, hr2, hcos]

theorem dLng_bound (wgsLat wgsLng : ℝ) (h1 : 72.004 ≤ wgsLng)
    (h2 : wgsLng ≤ 137.8347) (h3 : 0.8293 ≤ wgsLat) (h4 : wgsLat ≤ 55.8271) :
    |dLng wgsLat wgsLng| ≤ 1 / 50 := by
  have ht := transformLng_bound (wgsLng - 105.0) (wgsLat - 35.0)
    (by rw [abs_le]; constructor <;> linarith)
    (by rw [abs_le]; constructor <;> linarith)
  obtain ⟨hsq0, hsq1⟩ := sqrt_magic_bounds wgsLat
  have hquot : a ≤ a / Real.sqrt (magic wgsLat) := by
    rw [le_div_iff hsq0]
    exact mul_le_of_le_one_right (by norm_num [a]) hsq1
  have hcos := cos_radLat_lb wgsLat h3 h4
  have haB : (6378245 : ℝ) ≤ a / Real.sqrt (magic wgsLat) :=
    le_trans (by norm_num [a]) hquot
  have hB : (3316687 : ℝ) ≤
      a / Real.sqrt (magic wgsLat) * Real.cos (radLat wgsLat) := by
    calc (3316687 : ℝ) ≤ 6378245 * 0.52 := by norm_num
      _ ≤ _ := mul_le_mul haB hcos (by norm_num) (by linarith)
  have hPIlo : (3.14 : ℝ) ≤ PI := by norm_num [PI]
  have hden : (10414397 : ℝ) ≤
      a / Real.sqrt (magic wgsLat) * Real.cos (radLat wgsLat) * PI := by
    calc (10414397 : ℝ) ≤ 3316687 * 3.14 := by norm_num
      _ ≤ _ := mul_le_mul hB hPIlo (by norm_num) (by linarith)
  have hnum : |transformLng (wgsLng - 105.0) (wgsLat - 35.0) * 180.0| ≤ 183600 := by
    rw [abs_mul, show |(180.0 : ℝ)| = 180 by norm_num]
    linarith [abs_nonneg (transformLng (wgsLng - 105.0) (wgsLat - 35.0))]
  rw [dLng, abs_div, abs_of_pos (by linarith : (0 : ℝ) <
    a / Real.sqrt (magic wgsLat) * Real.cos (radLat wgsLat) * PI)]
  calc |transformLng (wgsLng - 105.0) (wgsLat - 35.0) * 180.0| /
      (a / Real.sqrt (magic wgsLat) * Real.cos (radLat wgsLat) * PI) ≤
      183600 / 10414397 := div_le_div (by norm_num) hnum (by norm_num) hden
    _ ≤ 1 / 50 := by norm_num

theorem wgs84ToGcj02_out (wgsLat wgsLng : ℝ) (h : outOfChina wgsLng wgsLat) :
    wgs84ToGcj02 wgsLat wgsLng = ⟨wgsLat, wgsLng⟩ := by
  rw [wgs84ToGcj02, if_pos h]

theorem wgs84ToGcj02_in (wgsLat wgsLng : ℝ) (h : ¬ outOfChina wgsLng wgsLat) :
    wgs84ToGcj02 wgsLat wgsLng =
      ⟨wgsLat + dLat wgsLat wgsLng, wgsLng + dLng wgsLat wgsLng⟩ := by
  rw [wgs84ToGcj02, if_neg h]

theorem gcj02ToWgs84_out (gcjLat gcjLng : ℝ) (h : outOfChina gcjLng gcjLat) :
    gcj02ToWgs84 gcjLat gcjLng = ⟨gcjLat, gcjLng⟩ := by
  rw [gcj02ToWgs84, if_pos h]

theorem gcj02ToWgs84_in (gcjLat gcjLng : ℝ) (h : ¬ outOfChina gcjLng gcjLat) :
    gcj02ToWgs84 gcjLat gcjLng =
      ⟨gcjLat * 2 - (wgs84ToGcj02 gcjLat gcjLng).lat,
       gcjLng * 2 - (wgs84ToGcj02 gcjLat gcjLng).lng⟩ := by
  rw [gcj02ToWgs84, if_neg h]

/-- C8: outside the regional bounding box both transforms are exactly the
identity; inside it, the forward transform followed by the (spec-modelled)
inverse returns the original point within 1/20 of a degree on each
coordinate (the one-step inverse subtracts the shift recomputed at the
shifted point, so the round-trip error is the difference of two shifts, each
of which is below 1/100 of a degree in latitude and 1/50 in longitude). -/
theorem coordTransform_roundtrip (lat lng : ℝ) :
    (outOfChina lng lat →
      wgs84ToGcj02 lat lng = ⟨lat, lng⟩ ∧ gcj02ToWgs84 lat lng = ⟨lat, lng⟩) ∧
    (¬ outOfChina lng lat →
      |(gcj02ToWgs84 (wgs84ToGcj02 lat lng).lat
          (wgs84ToGcj02 lat lng).lng).lat - lat| ≤ 1 / 20 ∧
      |(gcj02ToWgs84 (wgs84ToGcj02 lat lng).lat
          (wgs84ToGcj02 lat lng).lng).lng - lng| ≤ 1 / 20) := by
  constructor
  · intro h
    exact ⟨wgs84ToGcj02_out lat lng h, gcj02ToWgs84_out lat lng h⟩
  · intro h
    obtain ⟨h1, h2, h3, h4⟩ := (not_outOfChina_iff lng lat).mp h
    have hq := wgs84ToGcj02_in lat lng h
    have hqlat : (wgs84ToGcj02 lat lng).lat = lat + dLat lat lng := by rw [hq]
    have hqlng : (wgs84ToGcj02 lat lng).lng = lng + dLng lat lng := by rw [hq]
    have hd1 := abs_le.mp (dLat_bound lat lng h1 h2 h3 h4)
    have hd2 := abs_le.mp (dLng_bound lat lng h1 h2 h3 h4)
    rw [hqlat, hqlng]
    by_cases hout : outOfChina (lng + dLng lat lng) (lat + dLat lat lng)
    · have hrt := gcj02ToWgs84_out (lat + dLat lat lng) (lng + dLng lat lng) hout
      rw [hrt]
      constructor
      · rw [show (⟨lat + dLat lat lng, lng + dLng lat lng⟩ : LatLng).lat - lat =
          dLat lat lng from by ring]
        rw [abs_le]
        constructor <;> linarith
      · rw [show (⟨lat + dLat lat lng, lng + dLng lat lng⟩ : LatLng).lng - lng =
          dLng lat lng from by ring]
        rw [abs_le]
        constructor <;> linarith
    · obtain ⟨k1, k2, k3, k4⟩ := (not_outOfChina_iff _ _).mp hout
      have hrt := gcj02ToWgs84_in (lat + dLat lat lng) (lng + dLng lat lng) hout
      have hq2 := wgs84ToGcj02_in (lat + dLat lat lng) (lng + dLng lat lng) hout
      have hq2lat : (wgs84ToGcj02 (lat + dLat lat lng) (lng + dLng lat lng)).lat =
          lat + dLat lat lng + dLat (lat + dLat lat lng) (lng + dLng lat lng) := by
        rw [hq2]
      have hq2lng : (wgs84ToGcj02 (lat + dLat lat lng) (lng + dLng lat lng)).lng =
          lng + dLng lat lng + dLng (lat + dLat lat lng) (lng + dLng lat lng) := by
        rw [hq2]
      have he1 := abs_le.mp (dLat_bound (lat + dLat lat lng) (lng + dLng lat lng)
        k1 k2 k3 k4)
      have he2 := abs_le.mp (dLng_bound (lat + dLat lat lng) (lng + dLng lat lng)
        k1 k2 k3 k4)
      rw [hrt]
      constructor
      · rw [show (⟨(lat + dLat lat lng) * 2 -
            (wgs84ToGcj02 (lat + dLat lat lng) (lng + dLng lat lng)).lat,
            (lng + dLng lat lng) * 2 -
            (wgs84ToGcj02 (lat + dLat lat lng) (lng + dLng lat lng)).lng⟩ :
            LatLng).lat = (lat + dLat lat lng) * 2 -
            (wgs84ToGcj02 (lat + dLat lat lng) (lng + dLng lat lng)).lat from rfl,
          hq2lat]
        rw [show (lat + dLat lat lng) * 2 -
            (lat + dLat lat lng + dLat (lat + dLat lat lng) (lng + dLng lat lng)) -
            lat = dLat lat lng -
            dLat (lat + dLat lat lng) (lng + dLng lat lng) from by ring]
        rw [abs_le]
        constructor <;> linarith
      · rw [show (⟨(lat + dLat lat lng) * 2 -
            (wgs84ToGcj02 (lat + dLat lat lng) (lng + dLng lat lng)).lat,
            (lng + dLng lat lng) * 2 -
            (wgs84ToGcj02 (lat + dLat lat lng) (lng + dLng lat lng)).lng⟩ :
            LatLng).lng = (lng + dLng lat lng) * 2 -
            (wgs84ToGcj02 (lat + dLat lat lng) (lng + dLng lat lng)).lng from rfl,
          hq2lng]
        rw [show (lng + dLng lat lng) * 2 -
            (lng + dLng lat lng + dLng (lat + dLat lat lng) (lng + dLng lat lng)) -
            lng = dLng lat lng -
            dLng (lat + dLat lat lng) (lng + dLng lat lng) from by ring]
        rw [abs_le]
        constructor <;> linarith

/-- Witness for `coordTransform_roundtrip`: the region's centre point and a
point outside the region. -/
theorem coordTransform_roundtrip_witness :
    (wgs84ToGcj02 0 0 = ⟨0, 0⟩ ∧ gcj02ToWgs84 0 0 = ⟨0, 0⟩) ∧
    |(gcj02ToWgs84 (wgs84ToGcj02 35 105).lat
        (wgs84ToGcj02 35 105).lng).lat - 35| ≤ 1 / 20 :=
  ⟨(coordTransform_roundtrip 0 0).1 (by norm_num [outOfChina]),
   ((coordTransform_roundtrip 35 105).2 (by norm_num [outOfChina])).1⟩

end CoordTransform

end GeoGuess
